import Mathlib

/-!
Verification of the CSA transport-network core of `uk_rail_isochrones`
(`src/csa.rs`), shallowly embedded in Lean.

Conventions of the embedding:
* `chrono` civil times are encoded by integers: a `NaiveDate` is a count of
  days, a `NaiveTime` is a count of seconds since midnight, and a
  `NaiveDateTime` is an absolute count of seconds.  Comparison and addition of
  `TimeDelta` values agree with integer comparison and addition under this
  encoding.
* `f64` quantities that the claims reason about (great-circle distances in
  metres, the walking speed) are modelled as exact rationals.
* Rust `HashMap`s are modelled as association lists with insert-replace
  semantics; the entry list doubles as the (run-to-run varying) iteration
  order of the map.
* The KD-tree radius query `stops_within_radius` runs on `f64` trigonometry
  that has no exact shallow embedding, so the query function takes the list of
  `(stop id, distance in metres)` pairs it would produce as a parameter
  (`seeds`); the geometric facts used by the theorems — distances are
  non-negative, the ids come from the tree, kiddo's `within` returns results
  sorted by distance — appear as hypotheses.
-/

namespace RailIso

/-!
`chrono` values are encoded as plain integers (plain `Int`/`Nat` rather than
type synonyms, so that arithmetic automation sees them directly):
* a `NaiveDate` is an `Int` counting days; day 0 is taken to be a Monday, so
  the weekday index used by `Service::runs_on` is the date modulo 7;
* a `NaiveTime` is a `Nat` counting whole seconds since midnight; values
  produced by chrono satisfy `t < 86400`, which appears as a hypothesis where
  a proof needs it;
* a `NaiveDateTime` is an `Int` counting absolute seconds.
-/

def secondsPerDay : Int := 86400

/-- `NaiveDateTime::new(date, time)`. -/
def mkDateTime (d : Int) (t : Nat) : Int := d * secondsPerDay + (t : Int)

/-- The `date()` component of a `NaiveDateTime` under the seconds encoding. -/
def dateOfDT (dt : Int) : Int := dt / secondsPerDay

/-- The `time()` component (as seconds since midnight) of a `NaiveDateTime`. -/
def timeOfDT (dt : Int) : Int := dt % secondsPerDay

/-- `Stop` (csa.rs): display name and coordinates in degrees. -/
structure Stop where
  name : String
  lat : ℚ
  lon : ℚ
deriving DecidableEq

/-- `Connection` (csa.rs): one vehicle hop.  The departure and arrival fields
are `NaiveTime` values — times of day, not absolute date-times. -/
structure Connection where
  trip_id : Nat
  from_stop_id : Nat
  to_stop_id : Nat
  departure_time : Nat
  arrival_time : Nat
deriving DecidableEq

/-- `Transfer` (csa.rs): a directed footpath with a `TimeDelta` duration in
whole seconds. -/
structure Transfer where
  from_stop_id : Nat
  to_stop_id : Nat
  transfer_time : Int
deriving DecidableEq

/-- `Connection::departure_date_time` (csa.rs): the departure time of day
resolved against a query date. -/
def Connection.departure_date_time (c : Connection) (date : Int) : Int :=
  mkDateTime date c.departure_time

/-- `Connection::arrival_date_time` (csa.rs): the arrival time of day resolved
against a query date, rolling over to the next day when the civil arrival is
strictly earlier than the civil departure. -/
def Connection.arrival_date_time (c : Connection) (date : Int) : Int :=
  if c.arrival_time < c.departure_time then
    mkDateTime (date + 1) c.arrival_time
  else
    mkDateTime date c.arrival_time

/-- `Service` (csa.rs): an inclusive date window with a Monday-first weekday
bitmap. -/
structure Service where
  start_date : Int
  end_date : Int
  runs_on : List Bool
deriving DecidableEq

/-- `Service::runs_on` (csa.rs): the date lies in the window and its weekday
bit is set. -/
def Service.runsOnDate (s : Service) (date : Int) : Bool :=
  let in_range := decide (s.start_date ≤ date) && decide (date ≤ s.end_date)
  let valid_weekday := s.runs_on.getD (date % 7).toNat false
  in_range && valid_weekday

/-- `Calendar` (csa.rs): positive service windows and cancellation windows per
trip, each a `HashMap<TripId, Vec<Service>>` modelled as an association list. -/
structure Calendar where
  services : List (Nat × List Service)
  cancellations : List (Nat × List Service)
deriving DecidableEq

/-- `HashMap` lookup on an association list (the key occurs at most once in
every map the program builds). -/
def alookup {α : Type} : List (Nat × α) → Nat → Option α
  | [], _ => none
  | p :: t, k => if p.1 = k then some p.2 else alookup t k

/-- `HashMap::insert` on an association list: replace the value at the
existing key in place, otherwise append a new entry (the appended position
models one possible hash-map iteration order). -/
def ainsert {α : Type} : List (Nat × α) → Nat → α → List (Nat × α)
  | [], k, v => [(k, v)]
  | p :: t, k, v => if p.1 = k then (k, v) :: t else p :: ainsert t k v

/-- `Calendar::runs_on` (csa.rs): some positive window matches and no
cancellation window matches. -/
def Calendar.runs_on (cal : Calendar) (trip_id : Nat) (date : Int) : Bool :=
  let service_runs := ((alookup cal.services trip_id).map
    (fun services => services.any (fun s => s.runsOnDate date))).getD false
  let cancelled := ((alookup cal.cancellations trip_id).map
    (fun c => c.any (fun s => s.runsOnDate date))).getD false
  service_runs && !cancelled

/-- `TransportNetwork` (csa.rs).  The kiddo KD-tree is modelled by its payload:
the list of stop ids it indexes, in the (hash-map determined) order they were
added; the unit-sphere coordinates attached to each id are `f64` trigonometry
with no exact embedding and no claim depends on them. -/
structure TransportNetwork where
  tree : List Nat
  stops : List (Nat × Stop)
  connections : List Connection
  transfers : List (Nat × List Transfer)
  calendar : Calendar
deriving DecidableEq

/-- `ArrivalTime` (csa.rs): one row of a query result; `geometry` is the point
`(lon, lat)`. -/
structure ArrivalTime where
  stop_name : String
  arrival_time : Int
  lon : ℚ
  lat : ℚ
deriving DecidableEq

/-- `WALKING_SPEED_M_S = 1.4` (csa.rs), as the exact rational 14/10 (spelled
with `Rat.divInt` so that concrete instances evaluate inside the kernel;
`WALKING_SPEED_M_S_eq` relates it to the `/` spelling). -/
def WALKING_SPEED_M_S : ℚ := Rat.divInt 14 10

/-- Rust `as i64` on a (finite, in-range) `f64`: truncation toward zero,
modelled on exact rationals. -/
def ratTrunc (q : ℚ) : Int := q.num.tdiv (q.den : Int)

/-- Exact rational division, spelled on numerators and denominators so that
concrete instances evaluate inside the kernel; `ratDiv_eq_div` shows it is
ordinary division. -/
def ratDiv (a b : ℚ) : ℚ := Rat.divInt (a.num * (b.den : Int)) ((a.den : Int) * b.num)

/-- The walking duration `(distance / WALKING_SPEED_M_S) as i64` (csa.rs). -/
def walkSeconds (d : ℚ) : Int := ratTrunc (ratDiv d WALKING_SPEED_M_S)

/-- The Phase-A walking seed label for a stop at distance `d` from the origin:
`departure_date_time + TimeDelta::seconds((d / WALKING_SPEED_M_S) as i64)`. -/
def seedTime (dt0 : Int) (d : ℚ) : Int := dt0 + walkSeconds d

/-- `CsaState` (csa.rs): per-query arrival labels and the boarded-trip set. -/
structure CsaState where
  arrival_times : List (Nat × Int)
  boarded_trips : List Nat
deriving DecidableEq

/-- `CsaState::new`. -/
def CsaState.new : CsaState := ⟨[], []⟩

/-- `CsaState::update_arrival`: an unconditional `HashMap::insert`. -/
def CsaState.update_arrival (st : CsaState) (stop_id : Nat) (time : Int) : CsaState :=
  { st with arrival_times := ainsert st.arrival_times stop_id time }

/-- `CsaState::board_trip`: `HashSet::insert`. -/
def CsaState.board_trip (st : CsaState) (trip_id : Nat) : CsaState :=
  if st.boarded_trips.contains trip_id then st
  else { st with boarded_trips := st.boarded_trips ++ [trip_id] }

/-- `CsaState::has_boarded`. -/
def CsaState.has_boarded (st : CsaState) (trip_id : Nat) : Bool :=
  st.boarded_trips.contains trip_id

/-- `CsaState::can_board`: the stop has a label and it is `≤` the departure. -/
def CsaState.can_board (st : CsaState) (stop_id : Nat) (departure_time : Int) : Bool :=
  match alookup st.arrival_times stop_id with
  | some time => decide (time ≤ departure_time)
  | none => false

/-- `CsaState::should_update_arrival`: no label yet, or the label is strictly
later than the candidate. -/
def CsaState.should_update_arrival (st : CsaState) (stop_id : Nat) (new_arrival : Int) : Bool :=
  match alookup st.arrival_times stop_id with
  | some time => decide (new_arrival < time)
  | none => true

/-- `TransportNetwork::get_transfers` (csa.rs): the transfer list of a stop, or
empty. -/
def TransportNetwork.get_transfers (net : TransportNetwork) (stop : Nat) : List Transfer :=
  (alookup net.transfers stop).getD []

/-- The shared conditional transfer relaxation loop: for each transfer out of
`stop`, update the target label with `base + transfer_time` when
`should_update_arrival` holds.  This is the loop body used both in Phase A
(with the walking seed time as `base`, csa.rs `query_lat_lon`) and in Phase B
(with the connection arrival as `base`). -/
def relaxTransfers (net : TransportNetwork) (base : Int) (stop : Nat)
    (st : CsaState) : CsaState :=
  (net.get_transfers stop).foldl
    (fun st tr =>
      if st.should_update_arrival tr.to_stop_id (base + tr.transfer_time) then
        st.update_arrival tr.to_stop_id (base + tr.transfer_time)
      else st)
    st

/-- One iteration of the Phase-A seeding loop of `query_lat_lon` (csa.rs): an
unconditional `update_arrival` with the walking seed, then one-hop transfer
relaxation from that seed time. -/
def seedOne (net : TransportNetwork) (dt0 : Int) (st : CsaState)
    (sd : Nat × ℚ) : CsaState :=
  let time := seedTime dt0 sd.2
  let st := st.update_arrival sd.1 time
  relaxTransfers net time sd.1 st

/-- Phase A of `query_lat_lon` (csa.rs): fold the seeding step over the
stops-within-radius enumeration, starting from `CsaState::new`. -/
def seedPhase (net : TransportNetwork) (dt0 : Int)
    (seeds : List (Nat × ℚ)) : CsaState :=
  seeds.foldl (seedOne net dt0) CsaState.new

/-- The loop of Rust `slice::binary_search_by` (the branchless std
implementation used by `binary_search_by_key`): narrow a window `[base,
base+size)` keeping `base` at `mid` whenever the probed key is not greater
than the target.  The first argument is fuel that makes the recursion
structural; `searchIdx` supplies `size` as fuel, which bounds the iteration
count. -/
def bsLoop (fuel : Nat) (conns : List Connection) (key : Nat)
    (base size : Nat) : Nat :=
  match fuel with
  | 0 => base
  | fuel + 1 =>
    if size ≤ 1 then base
    else
      let half := size / 2
      let mid := base + half
      if key < (conns.getD mid ⟨0, 0, 0, 0, 0⟩).departure_time then
        bsLoop fuel conns key base (size - half)
      else
        bsLoop fuel conns key mid (size - half)

/-- The start index computed by `TransportNetwork::connections_after` (csa.rs):
`binary_search_by_key(&departure_time, |c| c.departure_time)` followed by
`unwrap_or_else(|n| n)`.  After the loop the probe at `base` decides between
`Ok(base)`, `Err(base)` and `Err(base + 1)`. -/
def searchIdx (conns : List Connection) (key : Nat) : Nat :=
  if conns.length = 0 then 0
  else
    let base := bsLoop conns.length conns key 0 conns.length
    let d := (conns.getD base ⟨0, 0, 0, 0, 0⟩).departure_time
    if d = key then base
    else if d < key then base + 1
    else base

/-- `TransportNetwork::connections_after` (csa.rs): the suffix of the sorted
connection vector starting at the binary-search index. -/
def TransportNetwork.connections_after (net : TransportNetwork)
    (departure_time : Nat) : List Connection :=
  net.connections.drop (searchIdx net.connections departure_time)

/-- One iteration of the Phase-B connection scan of `query_lat_lon` (csa.rs):
calendar filter, boarding test, `board_trip`, conditional arrival update and
one-hop transfer relaxation from the connection's resolved arrival time. -/
def scanStep (net : TransportNetwork) (date : Int) (st : CsaState)
    (c : Connection) : CsaState :=
  if !(net.calendar.runs_on c.trip_id date) then st
  else if !(st.has_boarded c.trip_id) &&
      !(st.can_board c.from_stop_id (c.departure_date_time date)) then st
  else if (st.board_trip c.trip_id).should_update_arrival c.to_stop_id
      (c.arrival_date_time date) then
    relaxTransfers net (c.arrival_date_time date) c.to_stop_id
      ((st.board_trip c.trip_id).update_arrival c.to_stop_id
        (c.arrival_date_time date))
  else st.board_trip c.trip_id

/-- Phase C of `query_lat_lon` (csa.rs): project the arrival map to
`ArrivalTime` rows.  The Rust code indexes `self.stops[&id]`, which panics when
the id is absent; the embedding returns `none` in that case. -/
def emitRows (net : TransportNetwork) (st : CsaState) : Option (List ArrivalTime) :=
  st.arrival_times.mapM
    (fun kv => (alookup net.stops kv.1).map
      (fun s => ⟨s.name, kv.2, s.lon, s.lat⟩))

/-- `TransportNetwork::query_lat_lon` (csa.rs), parameterized by the
`stops_within_radius(lat, lon, 500.0)` enumeration (`seeds`, see the module
comment): Phase A seeding, Phase B scan over `connections_after
(departure_time)`, Phase C emission. -/
def TransportNetwork.query_lat_lon (net : TransportNetwork)
    (seeds : List (Nat × ℚ)) (date : Int) (departure_time : Nat) :
    Option (List ArrivalTime) :=
  let dt0 := mkDateTime date departure_time
  let st := seedPhase net dt0 seeds
  let st := (net.connections_after departure_time).foldl (scanStep net date) st
  emitRows net st

/-- The `CsaAdapter` capability record (adapters.rs, as consumed by csa.rs):
four fallible producers with one opaque error type. -/
structure CsaAdapter (ε : Type) where
  stops : Except ε (List (Nat × Stop))
  connections : Except ε (List Connection)
  transfers : Except ε (List (Nat × List Transfer))
  calendar : Except ε Calendar

/-- The comparison key of `connections.sort_unstable_by_key(|c|
c.departure_time)` (csa.rs): departure time only. -/
def depLE (a b : Connection) : Prop := a.departure_time ≤ b.departure_time

instance : DecidableRel depLE := fun x y => Nat.decLe x.departure_time y.departure_time

instance : IsTotal Connection depLE := ⟨fun x y => Nat.le_total x.departure_time y.departure_time⟩

instance : IsTrans Connection depLE := ⟨fun _ _ _ => Nat.le_trans⟩

/-- `connections.sort_unstable_by_key(|c| c.departure_time)` (csa.rs): a sort
by departure time only.  Rust's unstable sort leaves equal-keyed elements in an
implementation-determined order; for the short slices appearing in the concrete
theorems below its small-slice insertion sort keeps them in input order, which
is the behaviour of `List.insertionSort`. -/
def sortConnections (l : List Connection) : List Connection :=
  l.insertionSort depLE

/-- `TransportNetwork::from_adapter` (csa.rs): take stops, sort the
connections, build the KD-tree over the stops (modelled by its id payload in
stop-map iteration order), take transfers and calendar, and return the network.
The only failure paths are the four adapter calls, in this order. -/
def from_adapter {ε : Type} (adapter : CsaAdapter ε) :
    Except ε TransportNetwork :=
  match adapter.stops with
  | .error e => .error e
  | .ok stops =>
    match adapter.connections with
    | .error e => .error e
    | .ok connections0 =>
      let connections := sortConnections connections0
      let tree := stops.map (fun p => p.1)
      match adapter.transfers with
      | .error e => .error e
      | .ok transfers =>
        match adapter.calendar with
        | .error e => .error e
        | .ok calendar => .ok ⟨tree, stops, connections, transfers, calendar⟩

instance {ε : Type} [DecidableEq ε] : DecidableEq (Except ε TransportNetwork) :=
  fun a b => by
    cases a <;> cases b
    case error.error e f =>
      exact decidable_of_iff (e = f) (by simp)
    case error.ok e n => exact .isFalse (by simp)
    case ok.error n e => exact .isFalse (by simp)
    case ok.ok m n =>
      exact decidable_of_iff (m = n) (by simp)

/-! ### Predicates used by the theorems -/

/-- The keys of an association list are pairwise distinct. -/
def NodupKeys {α : Type} (l : List (Nat × α)) : Prop :=
  (l.map (fun p => p.1)).Nodup

/-- §3 invariant: every transfer duration in the network is non-negative. -/
def TransfersNonneg (net : TransportNetwork) : Prop :=
  ∀ p ∈ net.transfers, ∀ tr ∈ p.2, 0 ≤ tr.transfer_time

/-- chrono type invariant: every connection's times of day are below 86400
seconds. -/
def ValidTimes (net : TransportNetwork) : Prop :=
  ∀ c ∈ net.connections, c.departure_time < 86400 ∧ c.arrival_time < 86400

/-- §3 invariant: every stop referenced as a connection target or a transfer
target resolves in the stop table (these are the lookups `query_lat_lon`
performs when emitting). -/
def RefsResolve (net : TransportNetwork) : Prop :=
  (∀ c ∈ net.connections, (alookup net.stops c.to_stop_id).isSome) ∧
  (∀ p ∈ net.transfers, ∀ tr ∈ p.2, (alookup net.stops tr.to_stop_id).isSome)

/-- Each seeded stop id resolves in the stop table (the KD-tree payload is
built from exactly the keys of the stop table, so radius-query output
satisfies this). -/
def SeedsResolve (net : TransportNetwork) (seeds : List (Nat × ℚ)) : Prop :=
  ∀ p ∈ seeds, (alookup net.stops p.1).isSome

instance (net : TransportNetwork) : Decidable (TransfersNonneg net) := by
  unfold TransfersNonneg; exact inferInstance

instance (net : TransportNetwork) : Decidable (ValidTimes net) := by
  unfold ValidTimes; exact inferInstance

instance (net : TransportNetwork) : Decidable (RefsResolve net) := by
  unfold RefsResolve; exact inferInstance

instance (net : TransportNetwork) (seeds : List (Nat × ℚ)) :
    Decidable (SeedsResolve net seeds) := by
  unfold SeedsResolve; exact inferInstance

instance {α : Type} (l : List (Nat × α)) : Decidable (NodupKeys l) := by
  unfold NodupKeys; exact inferInstance

/-- Every arrival label in the state is at least `m`. -/
def LabelsLB (st : CsaState) (m : Int) : Prop :=
  ∀ p ∈ st.arrival_times, m ≤ p.2

/-- Every arrival-label key in the state resolves in the stop table. -/
def LabelsResolve (net : TransportNetwork) (st : CsaState) : Prop :=
  ∀ p ∈ st.arrival_times, (alookup net.stops p.1).isSome

/-- Two per-query states are observably equal: the same arrival mapping and
the same boarded-trip set (the association lists may list entries in different
hash-map iteration orders). -/
def StateEquiv (st1 st2 : CsaState) : Prop :=
  (∀ x, alookup st1.arrival_times x = alookup st2.arrival_times x) ∧
  st1.boarded_trips = st2.boarded_trips

/-- Option-valued minimum: the value a label settles to under a sequence of
conditional strictly-earlier updates is the fold of `cmin` over the offered
values. -/
def cmin : Option Int → Int → Option Int
  | none, v => some v
  | some w, v => some (min w v)

instance : RightCommutative cmin := ⟨by
  intro o a b
  cases o with
  | none => simp [cmin, min_comm]
  | some w => simp [cmin, min_assoc, min_comm a b]⟩

/-- The transfer contributions offered to stop `x` while the seed enumeration
`l` is processed in Phase A: for each seed `(u, d)` and each transfer
`u → x` of duration `w`, the value `seedTime dt0 d + w`. -/
def contribVals (net : TransportNetwork) (dt0 : Int) (l : List (Nat × ℚ))
    (x : Nat) : List Int :=
  l.flatMap (fun u => (net.get_transfers u.1).filterMap
    (fun tr => if tr.to_stop_id = x then
      some (seedTime dt0 u.2 + tr.transfer_time) else none))

/-- Order-insensitive characterization of the Phase-A arrival label of stop
`x` after a distance-sorted seed enumeration `l` is processed from a state
whose label at `x` is `init` (proved in `seedFold_lookup`): a seeded stop ends
at the minimum of its own walking seed and the contributions of strictly
farther seeds; an unseeded stop ends at the minimum of `init` and all
contributions. -/
def phaseAVal (net : TransportNetwork) (dt0 : Int) (l : List (Nat × ℚ))
    (init : Option Int) (x : Nat) : Option Int :=
  match l.find? (fun p => p.1 == x) with
  | some p =>
    (contribVals net dt0 (l.filter (fun u => decide (p.2 < u.2))) x).foldl cmin
      (some (seedTime dt0 p.2))
  | none => (contribVals net dt0 l x).foldl cmin init

/-! ### Concrete fixtures used by the claim theorems and witnesses -/

/-- A service window that runs every day of dates 0–100. -/
def exSvcAll : Service := ⟨0, 100, [true, true, true, true, true, true, true]⟩

def exStopA : Stop := ⟨"A", 0, 0⟩

def exStopB : Stop := ⟨"B", 0, 1⟩

/-- A connection departing at 09:00:00 (= 32400 s), reaching stop 1. -/
def exC1a : Connection := ⟨0, 0, 1, 32400, 33000⟩

/-- A second connection also departing at 32400 s. -/
def exC1b : Connection := ⟨1, 0, 0, 32400, 32400⟩

def exCalC1 : Calendar := ⟨[(0, [exSvcAll]), (1, [exSvcAll])], []⟩

def exNetC1 : TransportNetwork :=
  ⟨[0, 1], [(0, exStopA), (1, exStopB)], [exC1a, exC1b], [], exCalC1⟩

/-- A network with two stops and a 60-second transfer from stop 0 to stop 1. -/
def exNetC2 : TransportNetwork :=
  ⟨[0, 1], [(0, exStopA), (1, exStopB)], [], [(0, [⟨0, 1, 60⟩])], ⟨[], []⟩⟩

/-- Departs 32400, trip 5. -/
def exC3a : Connection := ⟨5, 0, 0, 32400, 32500⟩

/-- Departs 32400, trip 3. -/
def exC3b : Connection := ⟨3, 0, 0, 32400, 32600⟩

def exAdC3 : CsaAdapter Unit :=
  ⟨.ok [(0, exStopA)], .ok [exC3a, exC3b], .ok [], .ok ⟨[], []⟩⟩

def exNetC3 : TransportNetwork :=
  ⟨[0], [(0, exStopA)], [exC3a, exC3b], [], ⟨[], []⟩⟩

/-- A connection whose civil arrival time of day (00:30) is earlier than its
civil departure (23:50). -/
def exC4roll : Connection := ⟨0, 0, 0, 85800, 1800⟩

def exAdC4 : CsaAdapter Unit :=
  ⟨.ok [(0, exStopA)], .ok [exC4roll], .ok [], .ok ⟨[], []⟩⟩

def exNetC4 : TransportNetwork :=
  ⟨[0], [(0, exStopA)], [exC4roll], [], ⟨[], []⟩⟩

/-- An adapter whose only connection references stop 7, absent from the stop
table, and trip 0, absent from the calendar. -/
def exAdC6 : CsaAdapter Unit :=
  ⟨.ok [(0, exStopA)], .ok [⟨0, 0, 7, 32400, 33000⟩], .ok [], .ok ⟨[], []⟩⟩

def exNetC6 : TransportNetwork :=
  ⟨[0], [(0, exStopA)], [⟨0, 0, 7, 32400, 33000⟩], [], ⟨[], []⟩⟩

/-- A built network whose only connection arrives at stop 1, which is missing
from the stop table. -/
def exNetC7 : TransportNetwork :=
  ⟨[0], [(0, exStopA)], [⟨0, 0, 1, 32400, 33000⟩], [], ⟨[(0, [exSvcAll])], []⟩⟩

/-- A small network exercising every field of the persisted form. -/
def exNetC9 : TransportNetwork :=
  ⟨[0, 1], [(0, exStopA), (1, exStopB)], [⟨0, 0, 1, 32400, 33000⟩],
    [(0, [⟨0, 1, 60⟩])],
    ⟨[(0, [⟨0, 10, [true, false, true, false, true, false, true]⟩])],
      [(0, [⟨-3, 4, [true, true, true, true, true, true, true]⟩])]⟩⟩

/-!
### Persistence model

`save` (csa.rs) is `std::fs::write(path, postcard::to_stdvec(self))` and
`load` is `postcard::from_bytes(std::fs::read(path))`: the file is the raw
postcard serialization of the `TransportNetwork` struct.  Postcard's public
wire format is schema-less — struct fields are written in declaration order
with no field names, no magic bytes and no version number; integers are
LEB128 varints (zigzag for signed), sequences and strings are
length-prefixed.  The encoders below follow that format for the embedded
network model, with the model's abbreviations spelled out per encoder:
the kiddo tree is represented by its id payload, `f64` values by the exact
rationals of the embedding, UTF-8 byte sequences by per-character codepoint
varints, and the `[bool; 7]` weekday array by a length-prefixed list.  None
of the claims depends on those interior layouts; what matters is that the
stream starts with the first field's data and carries no header, and that
decoding performs no magic or version check.
-/

/-- LEB128 varint encoding (fuel-structural; 10 bytes cover every u64). -/
def varint : Nat → Nat → List Nat
  | 0, _ => []
  | fuel + 1, n => if n < 128 then [n] else (n % 128 + 128) :: varint fuel (n / 128)

def natBytes (n : Nat) : List Nat := varint 10 n

/-- Zigzag-then-varint encoding of a signed integer (postcard's format). -/
def intBytes (i : Int) : List Nat :=
  natBytes (if 0 ≤ i then (2 * i).toNat else (-(2 * i) - 1).toNat)

def boolBytes (b : Bool) : List Nat := [if b then 1 else 0]

/-- Length-prefixed sequence (postcard's `Vec`/map/string framing). -/
def listBytes {α : Type} (enc : α → List Nat) (l : List α) : List Nat :=
  natBytes l.length ++ l.flatMap enc

def stringBytes (s : String) : List Nat :=
  listBytes (fun c => natBytes c.toNat) s.toList

def ratBytes (q : ℚ) : List Nat := intBytes q.num ++ natBytes q.den

def stopBytes (s : Stop) : List Nat :=
  stringBytes s.name ++ ratBytes s.lat ++ ratBytes s.lon

def connectionBytes (c : Connection) : List Nat :=
  natBytes c.trip_id ++ natBytes c.from_stop_id ++ natBytes c.to_stop_id ++
    natBytes c.departure_time ++ natBytes c.arrival_time

def transferBytes (t : Transfer) : List Nat :=
  natBytes t.from_stop_id ++ natBytes t.to_stop_id ++ intBytes t.transfer_time

def serviceBytes (s : Service) : List Nat :=
  intBytes s.start_date ++ intBytes s.end_date ++ listBytes boolBytes s.runs_on

def calendarBytes (cal : Calendar) : List Nat :=
  listBytes (fun p => natBytes p.1 ++ listBytes serviceBytes p.2) cal.services ++
    listBytes (fun p => natBytes p.1 ++ listBytes serviceBytes p.2)
      cal.cancellations

/-- `TransportNetwork::save` (csa.rs): the raw postcard serialization of the
struct, fields in declaration order (tree, stops, connections, transfers,
calendar), with no magic bytes and no version number. -/
def saveBytes (net : TransportNetwork) : List Nat :=
  listBytes natBytes net.tree ++
    listBytes (fun p => natBytes p.1 ++ stopBytes p.2) net.stops ++
    listBytes connectionBytes net.connections ++
    listBytes (fun p => natBytes p.1 ++ listBytes transferBytes p.2)
      net.transfers ++
    calendarBytes net.calendar

def dvarint : Nat → List Nat → Option (Nat × List Nat)
  | _, [] => none
  | 0, _ :: _ => none
  | fuel + 1, b :: rest =>
    if b < 128 then some (b, rest)
    else
      match dvarint fuel rest with
      | some (n, r) => some (n * 128 + (b - 128), r)
      | none => none

def dnat (bs : List Nat) : Option (Nat × List Nat) := dvarint 10 bs

def dint (bs : List Nat) : Option (Int × List Nat) :=
  match dnat bs with
  | some (n, r) =>
    some (if n % 2 = 0 then ((n / 2 : Nat) : Int) else -(((n + 1) / 2 : Nat) : Int), r)
  | none => none

def dbool (bs : List Nat) : Option (Bool × List Nat) :=
  match bs with
  | [] => none
  | b :: rest => some (decide (b ≠ 0), rest)

def dcount {α : Type} (dec : List Nat → Option (α × List Nat)) :
    Nat → List Nat → Option (List α × List Nat)
  | 0, bs => some ([], bs)
  | k + 1, bs =>
    match dec bs with
    | some (a, r) =>
      match dcount dec k r with
      | some (l, r2) => some (a :: l, r2)
      | none => none
    | none => none

def dlist {α : Type} (dec : List Nat → Option (α × List Nat))
    (bs : List Nat) : Option (List α × List Nat) :=
  match dnat bs with
  | some (k, r) => dcount dec k r
  | none => none

def dstring (bs : List Nat) : Option (String × List Nat) :=
  match dlist (fun bs => match dnat bs with
    | some (n, r) => some (Char.ofNat n, r)
    | none => none) bs with
  | some (cs, r) => some (String.mk cs, r)
  | none => none

def drat (bs : List Nat) : Option (ℚ × List Nat) :=
  match dint bs with
  | some (num, r) =>
    match dnat r with
    | some (den, r2) => some (Rat.divInt num (den : Int), r2)
    | none => none
  | none => none

def dstop (bs : List Nat) : Option (Stop × List Nat) :=
  match dstring bs with
  | some (name, r) =>
    match drat r with
    | some (lat, r2) =>
      match drat r2 with
      | some (lon, r3) => some (⟨name, lat, lon⟩, r3)
      | none => none
    | none => none
  | none => none

def dconnection (bs : List Nat) : Option (Connection × List Nat) :=
  match dnat bs with
  | some (trip, r1) =>
    match dnat r1 with
    | some (fr, r2) =>
      match dnat r2 with
      | some (toS, r3) =>
        match dnat r3 with
        | some (dep, r4) =>
          match dnat r4 with
          | some (arr, r5) => some (⟨trip, fr, toS, dep, arr⟩, r5)
          | none => none
        | none => none
      | none => none
    | none => none
  | none => none

def dtransfer (bs : List Nat) : Option (Transfer × List Nat) :=
  match dnat bs with
  | some (fr, r1) =>
    match dnat r1 with
    | some (toS, r2) =>
      match dint r2 with
      | some (w, r3) => some (⟨fr, toS, w⟩, r3)
      | none => none
    | none => none
  | none => none

def dservice (bs : List Nat) : Option (Service × List Nat) :=
  match dint bs with
  | some (sd, r1) =>
    match dint r1 with
    | some (ed, r2) =>
      match dlist dbool r2 with
      | some (ro, r3) => some (⟨sd, ed, ro⟩, r3)
      | none => none
    | none => none
  | none => none

def dkeyed {α : Type} (dec : List Nat → Option (α × List Nat))
    (bs : List Nat) : Option ((Nat × α) × List Nat) :=
  match dnat bs with
  | some (k, r) =>
    match dec r with
    | some (a, r2) => some ((k, a), r2)
    | none => none
  | none => none

/-- `TransportNetwork::load` (csa.rs): postcard-decode the file.  There is no
magic and no version to check; decoding fails only when the bytes are not a
well-formed postcard payload. -/
def loadBytes (bs : List Nat) : Option TransportNetwork :=
  match dlist dnat bs with
  | some (tree, r1) =>
    match dlist (dkeyed dstop) r1 with
    | some (stops, r2) =>
      match dlist dconnection r2 with
      | some (conns, r3) =>
        match dlist (dkeyed (dlist dtransfer)) r3 with
        | some (transfers0, r4) =>
          match dlist (dkeyed (dlist dservice)) r4 with
          | some (svcs, r5) =>
            match dlist (dkeyed (dlist dservice)) r5 with
            | some (cxls, _) =>
              some ⟨tree, stops, conns, transfers0, ⟨svcs, cxls⟩⟩
            | none => none
          | none => none
        | none => none
      | none => none
    | none => none
  | none => none

/-! ### Association-list lemmas -/

theorem alookup_ainsert {α : Type} (l : List (Nat × α)) (k x : Nat) (v : α) :
    alookup (ainsert l k v) x = if x = k then some v else alookup l x := by
  induction l with
  | nil =>
    by_cases h : x = k
    · simp [ainsert, alookup, h]
    · simp only [ainsert, alookup, if_neg h]
      rw [if_neg (fun hk => h hk.symm)]
  | cons p t ih =>
    by_cases hp : p.1 = k
    · by_cases h : x = k
      · simp [ainsert, alookup, hp, h]
      · simp only [ainsert, if_pos hp, alookup]
        rw [if_neg (fun hk : k = x => h hk.symm), if_neg h,
          if_neg (fun hpx : p.1 = x => h (hpx ▸ hp))]
    · by_cases h : p.1 = x
      · have hxk : ¬ x = k := fun hxk => hp (h.trans hxk)
        simp [ainsert, alookup, hp, h, hxk]
      · simp [ainsert, alookup, hp, h, ih]

theorem mem_ainsert {α : Type} {l : List (Nat × α)} {k : Nat} {v : α}
    {q : Nat × α} (h : q ∈ ainsert l k v) : q ∈ l ∨ q = (k, v) := by
  induction l with
  | nil =>
    simp only [ainsert, List.mem_singleton] at h
    right; exact h
  | cons p t ih =>
    by_cases hp : p.1 = k
    · simp only [ainsert, if_pos hp] at h
      rcases List.mem_cons.mp h with h | h
      · right; exact h
      · left; exact List.mem_cons_of_mem _ h
    · simp only [ainsert, if_neg hp] at h
      rcases List.mem_cons.mp h with h | h
      · left; exact h ▸ List.mem_cons_self _ _
      · rcases ih h with h | h
        · left; exact List.mem_cons_of_mem _ h
        · right; exact h

theorem nodupKeys_ainsert {α : Type} {l : List (Nat × α)} (k : Nat) (v : α)
    (h : NodupKeys l) : NodupKeys (ainsert l k v) := by
  induction l with
  | nil => simp [ainsert, NodupKeys]
  | cons p t ih =>
    unfold NodupKeys at h
    simp only [List.map_cons, List.nodup_cons] at h
    by_cases hp : p.1 = k
    · unfold NodupKeys
      simp only [ainsert, if_pos hp, List.map_cons, List.nodup_cons]
      exact ⟨hp ▸ h.1, h.2⟩
    · unfold NodupKeys
      simp only [ainsert, if_neg hp, List.map_cons, List.nodup_cons]
      constructor
      · intro hmem
        rcases List.mem_map.mp hmem with ⟨q, hq, hq1⟩
        rcases mem_ainsert hq with hq' | hq'
        · exact h.1 (List.mem_map.mpr ⟨q, hq', hq1⟩)
        · apply hp
          rw [← hq1, hq']
      · exact ih h.2

theorem alookup_mem {α : Type} {l : List (Nat × α)} {k : Nat} {v : α}
    (h : alookup l k = some v) : (k, v) ∈ l := by
  induction l with
  | nil => simp [alookup] at h
  | cons p t ih =>
    by_cases hp : p.1 = k
    · simp only [alookup, if_pos hp, Option.some.injEq] at h
      have : p = (k, v) := by
        cases p with
        | mk a b =>
          simp only at hp h
          rw [hp, h]
      exact this ▸ List.mem_cons_self _ _
    · simp only [alookup, if_neg hp] at h
      exact List.mem_cons_of_mem _ (ih h)

/-! ### C1: binary search over duplicate departure times -/

/-- C1: the claim says the scan visits every connection with departure time
equal to the query time.  It does not: `binary_search_by_key` returns an
arbitrary index among equal keys (here index 1 of the two connections
departing at 32400), and the scan starts there, so connection `exC1a` —
departing exactly at the query time from the seeded stop 0 — is never
visited and stop 1 is missing from the result. -/
theorem C1_binary_search_skips_equal_departures :
    exC1a.departure_time = 32400 ∧
    exNetC1.connections = [exC1a, exC1b] ∧
    exNetC1.connections_after 32400 = [exC1b] ∧
    exNetC1.query_lat_lon [(0, 0)] 0 32400 =
      some [⟨"A", mkDateTime 0 32400, 0, 0⟩] := by
  decide

/-! ### C2: Phase-A seeding is not a min and is order-dependent -/

/-- C2: seeding stop 0 at distance 0 and stop 1 at distance 420 m (walk 300 s)
with a 60 s transfer 0 → 1.  In the distance-sorted enumeration the transfer
first labels stop 1 with start+60, and stop 1's own later walking seed then
overwrites it unconditionally with the strictly worse start+300; the reversed
enumeration keeps start+60.  So the seeded label is not the minimum of the
contributions, and it depends on the enumeration order. -/
theorem C2_seed_overwrite_not_min :
    (seedPhase exNetC2 32400 [(0, 0), (1, 420)]).arrival_times =
      [(0, 32400), (1, 32700)] ∧
    (seedPhase exNetC2 32400 [(1, 420), (0, 0)]).arrival_times =
      [(1, 32460), (0, 32400)] ∧
    (32460 : Int) < 32700 ∧
    exNetC2.query_lat_lon [(0, 0), (1, 420)] 0 32400 =
      some [⟨"A", 32400, 0, 0⟩, ⟨"B", 32700, 1, 0⟩] := by
  decide

/-! ### C3: the build sorts by departure time with no tie-break -/

/-- C3 counterexample: two connections with equal departure time are left in
input order by the sort (`sort_unstable_by_key` compares the departure time
only), so the built network orders trip 5 before trip 3, violating the claimed
`(trip_id, from_stop_id)` tie-break. -/
theorem C3_no_tiebreak_counterexample :
    from_adapter exAdC3 = .ok exNetC3 ∧
    exC3a.departure_time = exC3b.departure_time ∧
    exNetC3.connections = [exC3a, exC3b] ∧
    exC3b.trip_id < exC3a.trip_id := by
  decide

/-- C3 (amended): after `from_adapter` the connection sequence is sorted
ascending by `departure_time`; connections with equal departure time are left
in an implementation-determined order, with no `(trip_id, from_stop_id)`
tie-break. -/
theorem C3_sorted_by_departure {ε : Type} (A : CsaAdapter ε)
    (net : TransportNetwork) (h : from_adapter A = .ok net) :
    net.connections.Sorted depLE := by
  cases hs : A.stops with
  | error e => simp [from_adapter, hs] at h
  | ok s =>
    cases hc : A.connections with
    | error e => simp [from_adapter, hs, hc] at h
    | ok c =>
      cases ht : A.transfers with
      | error e => simp [from_adapter, hs, hc, ht] at h
      | ok t =>
        cases hcal : A.calendar with
        | error e => simp [from_adapter, hs, hc, ht, hcal] at h
        | ok cal =>
          simp only [from_adapter, hs, hc, ht, hcal, Except.ok.injEq] at h
          have : net.connections = sortConnections c := by
            rw [← h]
          rw [this]
          exact List.sorted_insertionSort depLE c

/-- C3 witness: the amended sortedness theorem applied to the concrete
adapter `exAdC3`. -/
theorem C3_sorted_by_departure_witness : exNetC3.connections.Sorted depLE :=
  C3_sorted_by_departure exAdC3 exNetC3 (by decide)

/-! ### Rational bridging lemmas -/

theorem ratDiv_eq_div (a b : ℚ) : ratDiv a b = a / b := by
  unfold ratDiv
  rw [Rat.divInt_eq_div]
  push_cast
  by_cases hb : b = 0
  · subst hb
    simp
  · have hbn : (b.num : ℚ) ≠ 0 := by
      exact_mod_cast Rat.num_ne_zero.mpr hb
    have had : ((a.den : ℚ)) ≠ 0 := by
      exact_mod_cast a.den_nz
    have hbd : ((b.den : ℚ)) ≠ 0 := by
      exact_mod_cast b.den_nz
    have ha2 : (a.num : ℚ) = a * (a.den : ℚ) :=
      (div_eq_iff had).mp (Rat.num_div_den a)
    have hb2 : (b.num : ℚ) = b * (b.den : ℚ) :=
      (div_eq_iff hbd).mp (Rat.num_div_den b)
    rw [div_eq_div_iff (mul_ne_zero had hbn) hb, ha2, hb2]
    ring

theorem WALKING_SPEED_M_S_eq : WALKING_SPEED_M_S = 14 / 10 := by
  unfold WALKING_SPEED_M_S
  rw [Rat.divInt_eq_div]
  norm_num

theorem WALKING_SPEED_M_S_pos : 0 < WALKING_SPEED_M_S := by
  rw [WALKING_SPEED_M_S_eq]
  norm_num

theorem ratTrunc_eq_floor {q : ℚ} (h : 0 ≤ q) : ratTrunc q = ⌊q⌋ := by
  unfold ratTrunc
  rw [Rat.floor_def]
  exact Int.tdiv_eq_ediv (by exact_mod_cast Rat.num_nonneg.mpr h)
    (Int.natCast_nonneg _)

theorem walkSeconds_nonneg {d : ℚ} (h : 0 ≤ d) : 0 ≤ walkSeconds d := by
  have hq : (0 : ℚ) ≤ d / WALKING_SPEED_M_S :=
    div_nonneg h (le_of_lt WALKING_SPEED_M_S_pos)
  unfold walkSeconds
  rw [ratDiv_eq_div, ratTrunc_eq_floor hq]
  exact Int.floor_nonneg.mpr hq

/-! ### C4: rollover resolution at query time -/

/-- C4 counterexample: the claim says the network stores absolute date-times
with the rollover resolved at build time.  It does not: `from_adapter` stores
the adapter's civil times of day unchanged (here arrival 00:30 < departure
23:50), and `arrival_date_time` resolves the date only against the query
date, giving a different absolute arrival for every query date. -/
theorem C4_build_stores_civil_times :
    from_adapter exAdC4 = .ok exNetC4 ∧
    exNetC4.connections = [exC4roll] ∧
    exC4roll.arrival_time < exC4roll.departure_time ∧
    exC4roll.arrival_date_time 0 = mkDateTime 1 1800 ∧
    exC4roll.arrival_date_time 5 = mkDateTime 6 1800 := by
  decide

/-- C4 (amended): rollover is resolved at query time by
`Connection::arrival_date_time` over the stored civil times of day: on query
date `d`, a connection whose civil arrival is strictly earlier than its civil
departure resolves to date `d + 1`, any other connection resolves to date `d`,
and in both cases the time of day is the stored arrival time.  This resolved
value is what the scan compares and stores. -/
theorem C4_rollover_resolved_per_query (c : Connection) (d : Int)
    (hdep : c.departure_time < 86400) (harr : c.arrival_time < 86400) :
    (c.arrival_time < c.departure_time →
      dateOfDT (c.arrival_date_time d) = d + 1 ∧
      timeOfDT (c.arrival_date_time d) = c.arrival_time) ∧
    (c.departure_time ≤ c.arrival_time →
      dateOfDT (c.arrival_date_time d) = d ∧
      timeOfDT (c.arrival_date_time d) = c.arrival_time) := by
  constructor
  · intro h
    unfold Connection.arrival_date_time dateOfDT timeOfDT mkDateTime secondsPerDay
    rw [if_pos h]
    omega
  · intro h
    unfold Connection.arrival_date_time dateOfDT timeOfDT mkDateTime secondsPerDay
    rw [if_neg (Nat.not_lt.mpr h)]
    omega

/-- C4 witness: the amended rollover theorem applied to the concrete rollover
connection `exC4roll` on query date 0. -/
theorem C4_rollover_resolved_per_query_witness :
    (exC4roll.arrival_time < exC4roll.departure_time →
      dateOfDT (exC4roll.arrival_date_time 0) = 0 + 1 ∧
      timeOfDT (exC4roll.arrival_date_time 0) = exC4roll.arrival_time) ∧
    (exC4roll.departure_time ≤ exC4roll.arrival_time →
      dateOfDT (exC4roll.arrival_date_time 0) = 0 ∧
      timeOfDT (exC4roll.arrival_date_time 0) = exC4roll.arrival_time) :=
  C4_rollover_resolved_per_query exC4roll 0 (by decide) (by decide)

/-! ### C6: the build never validates references -/

/-- C6 counterexample: an adapter whose only connection references stop 7
(missing from the stop table) and trip 0 (missing from the calendar) still
builds successfully — `from_adapter` returns `Ok` and performs no reference
validation. -/
theorem C6_build_accepts_dangling_references :
    from_adapter exAdC6 = .ok exNetC6 ∧
    alookup exNetC6.stops 7 = none ∧
    exNetC6.connections.map (fun c => c.to_stop_id) = [7] ∧
    alookup exNetC6.calendar.services 0 = none := by
  decide

/-- C6 (amended): `from_adapter` returns `Ok` exactly when all four adapter
methods succeed — no reference validation is performed, so dangling stop or
trip references are accepted; the only errors are the adapter's own,
propagated fail-fast, and the returned connections are sorted by departure
time. -/
theorem C6_ok_iff_adapter_ok {ε : Type} (A : CsaAdapter ε)
    (s : List (Nat × Stop)) (c : List Connection)
    (t : List (Nat × List Transfer)) (cal : Calendar)
    (hs : A.stops = .ok s) (hc : A.connections = .ok c)
    (ht : A.transfers = .ok t) (hcal : A.calendar = .ok cal) :
    from_adapter A = .ok ⟨s.map (fun p => p.1), s, sortConnections c, t, cal⟩ ∧
    (sortConnections c).Sorted depLE := by
  refine ⟨?_, List.sorted_insertionSort depLE c⟩
  simp [from_adapter, hs, hc, ht, hcal]

/-- C6 witness: the amended build theorem applied to the concrete dangling
adapter `exAdC6`. -/
theorem C6_ok_iff_adapter_ok_witness :
    from_adapter exAdC6 =
      .ok ⟨[(0, exStopA)].map (fun p => p.1), [(0, exStopA)],
        sortConnections [⟨0, 0, 7, 32400, 33000⟩], [], ⟨[], []⟩⟩ ∧
    (sortConnections [(⟨0, 0, 7, 32400, 33000⟩ : Connection)]).Sorted depLE :=
  C6_ok_iff_adapter_ok exAdC6 [(0, exStopA)] [⟨0, 0, 7, 32400, 33000⟩] []
    ⟨[], []⟩ rfl rfl rfl rfl

/-! ### C10: walking seed truncation -/

/-- C10: for a non-negative distance `d` (the KD-tree distances are
non-negative), the walking seed label is the query start plus
`⌊d / 1.4⌋` whole seconds: the Rust cast `as i64` truncates the fractional
part of `d / WALKING_SPEED_M_S` toward zero, which for non-negative `d` is
the floor, so walking-seed labels have whole-second granularity and round the
walk time down. -/
theorem C10_walk_seed_floor (dt0 : Int) (d : ℚ) (h : 0 ≤ d) :
    walkSeconds d = ⌊d / WALKING_SPEED_M_S⌋ ∧
    seedTime dt0 d = dt0 + ⌊d / WALKING_SPEED_M_S⌋ ∧
    ⌊d / WALKING_SPEED_M_S⌋ = ⌊d / (14 / 10 : ℚ)⌋ := by
  have hws : walkSeconds d = ⌊d / WALKING_SPEED_M_S⌋ := by
    unfold walkSeconds
    rw [ratDiv_eq_div,
      ratTrunc_eq_floor (div_nonneg h (le_of_lt WALKING_SPEED_M_S_pos))]
  refine ⟨hws, ?_, by rw [WALKING_SPEED_M_S_eq]⟩
  unfold seedTime
  rw [hws]

/-- C10 witness: the truncation theorem applied at distance 420 m and query
start 32400 s; the resulting label is 32400 + 300. -/
theorem C10_walk_seed_floor_witness :
    (walkSeconds 420 = ⌊(420 : ℚ) / WALKING_SPEED_M_S⌋ ∧
      seedTime 32400 420 = 32400 + ⌊(420 : ℚ) / WALKING_SPEED_M_S⌋ ∧
      ⌊(420 : ℚ) / WALKING_SPEED_M_S⌋ = ⌊(420 : ℚ) / (14 / 10 : ℚ)⌋) ∧
    walkSeconds 420 = 300 :=
  ⟨C10_walk_seed_floor 32400 420 (by norm_num), by decide⟩

/-! ### Generic fold and state lemmas -/

theorem foldl_invariant {α β : Type} {P : β → Prop} {f : β → α → β}
    (l : List α) (b : β) (hb : P b)
    (hf : ∀ x ∈ l, ∀ acc, P acc → P (f acc x)) : P (l.foldl f b) := by
  induction l generalizing b with
  | nil => exact hb
  | cons a t ih =>
    exact ih (f b a) (hf a (List.mem_cons_self a t) b hb)
      (fun x hx acc hacc => hf x (List.mem_cons_of_mem _ hx) acc hacc)

theorem transfersNonneg_get {net : TransportNetwork} (hw : TransfersNonneg net)
    (stop : Nat) : ∀ tr ∈ net.get_transfers stop, 0 ≤ tr.transfer_time := by
  intro tr htr
  unfold TransportNetwork.get_transfers at htr
  cases hl : alookup net.transfers stop with
  | none => rw [hl] at htr; simp at htr
  | some tl =>
    rw [hl] at htr
    simp only [Option.getD_some] at htr
    exact hw (stop, tl) (alookup_mem hl) tr htr

theorem board_trip_arrival (st : CsaState) (tr : Nat) :
    (st.board_trip tr).arrival_times = st.arrival_times := by
  unfold CsaState.board_trip
  split <;> rfl

/-! ### Lower-bound (no-time-travel) lemmas -/

theorem labelsLB_update {st : CsaState} {m t : Int} (h : LabelsLB st m)
    (ht : m ≤ t) (s : Nat) : LabelsLB (st.update_arrival s t) m := by
  intro p hp
  rcases mem_ainsert hp with h1 | h1
  · exact h p h1
  · rw [h1]
    exact ht

theorem labelsLB_relax {net : TransportNetwork} {m base : Int}
    (hw : TransfersNonneg net) (stop : Nat) (hbase : m ≤ base)
    {st : CsaState} (h : LabelsLB st m) :
    LabelsLB (relaxTransfers net base stop st) m := by
  unfold relaxTransfers
  refine foldl_invariant (P := fun s => LabelsLB s m) _ _ h ?_
  intro tr htr acc hacc
  split
  · exact labelsLB_update hacc
      (le_trans hbase
        (le_add_of_nonneg_right (transfersNonneg_get hw stop tr htr))) _
  · exact hacc

theorem labelsLB_seedPhase {net : TransportNetwork} {dt0 : Int}
    (hw : TransfersNonneg net) {seeds : List (Nat × ℚ)}
    (hd : ∀ p ∈ seeds, 0 ≤ p.2) :
    LabelsLB (seedPhase net dt0 seeds) dt0 := by
  unfold seedPhase
  refine foldl_invariant (P := fun s => LabelsLB s dt0) _ _
    (fun p hp => absurd hp (List.not_mem_nil p)) ?_
  intro sd hsd acc hacc
  unfold seedOne
  have htime : dt0 ≤ seedTime dt0 sd.2 :=
    le_add_of_nonneg_right (walkSeconds_nonneg (hd sd hsd))
  exact labelsLB_relax hw sd.1 htime (labelsLB_update hacc htime sd.1)

theorem arrival_dt_ge {c : Connection} (date : Int) {time : Nat}
    (h1 : time ≤ c.departure_time) (h2 : c.departure_time < 86400) :
    mkDateTime date time ≤ c.arrival_date_time date := by
  unfold Connection.arrival_date_time mkDateTime secondsPerDay
  split <;> omega

/-! ### Binary-search window lemmas -/

theorem bsLoop_window {conns : List Connection} (key : Nat)
    (hs : conns.Sorted depLE) :
    ∀ fuel base size, 1 ≤ size → size ≤ fuel → base + size ≤ conns.length →
      (∀ j, base + size ≤ j → j < conns.length →
        key < (conns.getD j ⟨0, 0, 0, 0, 0⟩).departure_time) →
      base ≤ bsLoop fuel conns key base size ∧
      bsLoop fuel conns key base size < base + size ∧
      (∀ j, bsLoop fuel conns key base size + 1 ≤ j → j < conns.length →
        key < (conns.getD j ⟨0, 0, 0, 0, 0⟩).departure_time) := by
  intro fuel
  induction fuel with
  | zero =>
    intro base size h1 h2 h3 hinv
    exact absurd h2 (by omega)
  | succ fuel ih =>
    intro base size h1 h2 h3 hinv
    by_cases hsz : size ≤ 1
    · simp only [bsLoop, if_pos hsz]
      refine ⟨le_refl _, by omega, ?_⟩
      intro j hj1 hj2
      exact hinv j (by omega) hj2
    · have hhalf : 1 ≤ size / 2 := by omega
      have hhalf2 : size / 2 < size := by omega
      simp only [bsLoop, if_neg hsz]
      by_cases hcmp :
          key < (conns.getD (base + size / 2) ⟨0, 0, 0, 0, 0⟩).departure_time
      · rw [if_pos hcmp]
        have hrec := ih base (size - size / 2) (by omega) (by omega) (by omega)
          (by
            intro j hj1 hj2
            by_cases hj3 : base + size ≤ j
            · exact hinv j hj3 hj2
            · have hmidj : base + size / 2 ≤ j := by omega
              rcases Nat.eq_or_lt_of_le hmidj with he | hl
              · rw [← he]
                exact hcmp
              · have hmidlen : base + size / 2 < conns.length := by omega
                have hdep := List.pairwise_iff_getElem.mp hs
                  (base + size / 2) j hmidlen hj2 hl
                rw [List.getD_eq_getElem _ _ hmidlen] at hcmp
                rw [List.getD_eq_getElem _ _ hj2]
                exact lt_of_lt_of_le hcmp hdep)
        exact ⟨hrec.1, by omega, hrec.2.2⟩
      · rw [if_neg hcmp]
        have hrec := ih (base + size / 2) (size - size / 2) (by omega)
          (by omega) (by omega)
          (by
            intro j hj1 hj2
            exact hinv j (by omega) hj2)
        exact ⟨by omega, by omega, hrec.2.2⟩

theorem searchIdx_suffix {conns : List Connection} (key : Nat)
    (hs : conns.Sorted depLE) :
    ∀ j, searchIdx conns key ≤ j → j < conns.length →
      key ≤ (conns.getD j ⟨0, 0, 0, 0, 0⟩).departure_time := by
  intro j hj1 hj2
  by_cases hlen : conns.length = 0
  · omega
  · have hwin := bsLoop_window key hs conns.length 0 conns.length
      (by omega) (le_refl _) (by omega) (by intro i hi1 hi2; omega)
    simp only [searchIdx, if_neg hlen] at hj1
    by_cases h1 :
        (conns.getD (bsLoop conns.length conns key 0 conns.length)
          ⟨0, 0, 0, 0, 0⟩).departure_time = key
    · rw [if_pos h1] at hj1
      rcases Nat.eq_or_lt_of_le hj1 with he | hl
      · rw [← he, h1]
      · exact le_of_lt (hwin.2.2 j (by omega) hj2)
    · rw [if_neg h1] at hj1
      by_cases h2 :
          (conns.getD (bsLoop conns.length conns key 0 conns.length)
            ⟨0, 0, 0, 0, 0⟩).departure_time < key
      · rw [if_pos h2] at hj1
        exact le_of_lt (hwin.2.2 j (by omega) hj2)
      · rw [if_neg h2] at hj1
        rcases Nat.eq_or_lt_of_le hj1 with he | hl
        · rw [← he]
          omega
        · exact le_of_lt (hwin.2.2 j (by omega) hj2)

theorem connections_after_subset {net : TransportNetwork} {t : Nat}
    {c : Connection} (h : c ∈ net.connections_after t) : c ∈ net.connections :=
  List.mem_of_mem_drop h

theorem mem_connections_after_ge {net : TransportNetwork} {key : Nat}
    (hs : net.connections.Sorted depLE) {c : Connection}
    (hc : c ∈ net.connections_after key) : key ≤ c.departure_time := by
  unfold TransportNetwork.connections_after at hc
  rcases List.mem_iff_getElem.mp hc with ⟨i, hi, hgi⟩
  have hlen : searchIdx net.connections key + i < net.connections.length := by
    rw [List.length_drop] at hi
    omega
  have hs2 := searchIdx_suffix key hs
    (searchIdx net.connections key + i) (Nat.le_add_right _ _) hlen
  rw [List.getD_eq_getElem _ _ hlen, ← List.getElem_drop, hgi] at hs2
  exact hs2

/-! ### mapM lemmas for the emission phase -/

theorem mapM_mem {α β : Type} {f : α → Option β} {l : List α} {r : List β}
    (h : l.mapM f = some r) : ∀ b ∈ r, ∃ a ∈ l, f a = some b := by
  induction l generalizing r with
  | nil =>
    rw [List.mapM_nil] at h
    cases h
    intro b hb
    exact absurd hb (by simp)
  | cons a t ih =>
    rw [List.mapM_cons] at h
    cases hfa : f a with
    | none => rw [hfa] at h; simp at h
    | some y =>
      rw [hfa] at h
      cases hmt : t.mapM f with
      | none => rw [hmt] at h; simp at h
      | some ys =>
        rw [hmt] at h
        have h2 : y :: ys = r := Option.some.inj h
        intro b hb
        rw [← h2] at hb
        rcases List.mem_cons.mp hb with hb | hb
        · exact ⟨a, List.mem_cons_self _ _, by rw [hfa, hb]⟩
        · rcases ih hmt b hb with ⟨x, hx, hfx⟩
          exact ⟨x, List.mem_cons_of_mem _ hx, hfx⟩

/-! ### C5: no time travel -/

/-- C5: for every network satisfying the §3 invariants (connections sorted,
chrono-valid times of day, non-negative transfer durations — the stored-time
inequality `arrival ≥ departure` holds automatically for the resolved
date-times by the rollover rule) and every query, every arrival time in the
returned list is at least the query start `(date, time)`. -/
theorem C5_no_time_travel (net : TransportNetwork) (seeds : List (Nat × ℚ))
    (date : Int) (time : Nat) (res : List ArrivalTime)
    (hsorted : net.connections.Sorted depLE)
    (hvalid : ∀ c ∈ net.connections, c.departure_time < 86400)
    (hw : TransfersNonneg net)
    (hd : ∀ p ∈ seeds, 0 ≤ p.2)
    (hq : net.query_lat_lon seeds date time = some res) :
    ∀ a ∈ res, mkDateTime date time ≤ a.arrival_time := by
  intro a ha
  unfold TransportNetwork.query_lat_lon at hq
  have hfinal : LabelsLB
      ((net.connections_after time).foldl (scanStep net date)
        (seedPhase net (mkDateTime date time) seeds)) (mkDateTime date time) := by
    refine foldl_invariant (P := fun st => LabelsLB st (mkDateTime date time))
      _ _ (labelsLB_seedPhase hw hd) ?_
    intro c hc acc hacc
    unfold scanStep
    split
    · exact hacc
    · split
      · exact hacc
      · have hc1 : time ≤ c.departure_time := mem_connections_after_ge hsorted hc
        have hc2 : c.departure_time < 86400 :=
          hvalid c (connections_after_subset hc)
        have harr := arrival_dt_ge date hc1 hc2
        have hboard : LabelsLB (acc.board_trip c.trip_id) (mkDateTime date time) := by
          intro p hp
          rw [board_trip_arrival] at hp
          exact hacc p hp
        split
        · exact labelsLB_relax hw _ harr (labelsLB_update hboard harr _)
        · exact hboard
  rcases mapM_mem hq a ha with ⟨kv, hkv, hfkv⟩
  cases hl : alookup net.stops kv.1 with
  | none => rw [hl] at hfkv; simp at hfkv
  | some s =>
    rw [hl] at hfkv
    have h3 : (⟨s.name, kv.2, s.lon, s.lat⟩ : ArrivalTime) = a :=
      Option.some.inj hfkv
    rw [← h3]
    exact hfinal kv hkv

/-- C5 witness: the no-time-travel theorem applied to the concrete network
`exNetC1` with one seed at the origin, instantiated at the single returned
row. -/
theorem C5_no_time_travel_witness :
    mkDateTime 0 32400 ≤
      (⟨"A", mkDateTime 0 32400, 0, 0⟩ : ArrivalTime).arrival_time :=
  C5_no_time_travel exNetC1 [(0, 0)] 0 32400
    [⟨"A", mkDateTime 0 32400, 0, 0⟩] (by decide) (by decide)
    (by decide) (by decide) (by decide) _ (List.mem_cons_self _ _)

/-! ### Resolved-reference lemmas for the emission phase -/

theorem mapM_isSome {α β : Type} {f : α → Option β} {l : List α}
    (h : ∀ x ∈ l, (f x).isSome) : ∃ r, l.mapM f = some r := by
  induction l with
  | nil => exact ⟨[], by rw [List.mapM_nil]; rfl⟩
  | cons a t ih =>
    rcases Option.isSome_iff_exists.mp (h a (List.mem_cons_self _ _)) with ⟨y, hy⟩
    rcases ih (fun x hx => h x (List.mem_cons_of_mem _ hx)) with ⟨ys, hys⟩
    refine ⟨y :: ys, ?_⟩
    rw [List.mapM_cons, hy, hys]
    rfl

theorem refsResolve_get {net : TransportNetwork} (hr : RefsResolve net)
    (stop : Nat) :
    ∀ tr ∈ net.get_transfers stop, (alookup net.stops tr.to_stop_id).isSome := by
  intro tr htr
  unfold TransportNetwork.get_transfers at htr
  cases hl : alookup net.transfers stop with
  | none => rw [hl] at htr; simp at htr
  | some tl =>
    rw [hl] at htr
    simp only [Option.getD_some] at htr
    exact hr.2 (stop, tl) (alookup_mem hl) tr htr

theorem labelsResolve_update {net : TransportNetwork} {st : CsaState}
    (h : LabelsResolve net st) {s : Nat}
    (hs : (alookup net.stops s).isSome) (t : Int) :
    LabelsResolve net (st.update_arrival s t) := by
  intro p hp
  rcases mem_ainsert hp with h1 | h1
  · exact h p h1
  · rw [h1]
    exact hs

theorem labelsResolve_relax {net : TransportNetwork} (hr : RefsResolve net)
    (base : Int) (stop : Nat) {st : CsaState} (h : LabelsResolve net st) :
    LabelsResolve net (relaxTransfers net base stop st) := by
  unfold relaxTransfers
  refine foldl_invariant (P := fun s => LabelsResolve net s) _ _ h ?_
  intro tr htr acc hacc
  split
  · exact labelsResolve_update hacc (refsResolve_get hr stop tr htr) _
  · exact hacc

theorem labelsResolve_seedPhase {net : TransportNetwork} (hr : RefsResolve net)
    {seeds : List (Nat × ℚ)} (hseeds : SeedsResolve net seeds) (dt0 : Int) :
    LabelsResolve net (seedPhase net dt0 seeds) := by
  unfold seedPhase
  refine foldl_invariant (P := fun s => LabelsResolve net s) _ _
    (fun p hp => absurd hp (List.not_mem_nil p)) ?_
  intro sd hsd acc hacc
  unfold seedOne
  exact labelsResolve_relax hr _ _
    (labelsResolve_update hacc (hseeds sd hsd) _)

theorem labelsResolve_board {net : TransportNetwork} {st : CsaState}
    (h : LabelsResolve net st) (tr : Nat) :
    LabelsResolve net (st.board_trip tr) := by
  intro p hp
  rw [board_trip_arrival] at hp
  exact h p hp

theorem labelsResolve_scanStep {net : TransportNetwork} {date : Int}
    {c : Connection} (hr : RefsResolve net) (hc : c ∈ net.connections)
    {st : CsaState} (h : LabelsResolve net st) :
    LabelsResolve net (scanStep net date st c) := by
  unfold scanStep
  split
  · exact h
  · split
    · exact h
    · split
      · exact labelsResolve_relax hr _ _
          (labelsResolve_update (labelsResolve_board h _) (hr.1 c hc) _)
      · exact labelsResolve_board h _

/-! ### Empty-state scan lemmas -/

theorem scanStep_empty (net : TransportNetwork) (date : Int) (c : Connection) :
    scanStep net date CsaState.new c = CsaState.new := by
  unfold scanStep
  split
  · rfl
  · split
    · rfl
    · next h2 =>
      exfalso
      apply h2
      rfl

theorem scan_empty (net : TransportNetwork) (date : Int) (l : List Connection) :
    l.foldl (scanStep net date) CsaState.new = CsaState.new := by
  induction l with
  | nil => rfl
  | cons c t ih =>
    rw [List.foldl_cons, scanStep_empty]
    exact ih

/-! ### C7: query totality -/

/-- C7 counterexample: the claim says a built network's query never fails.
`exNetC7` is buildable by `from_adapter` (which never validates references,
C6), its only connection arrives at stop 1 which is missing from the stop
table, and the emission phase's `self.stops[&id]` lookup then fails — `none`
here models the Rust index panic. -/
theorem C7_panics_on_dangling_to_stop :
    from_adapter (⟨.ok [(0, exStopA)], .ok [⟨0, 0, 1, 32400, 33000⟩], .ok [],
      .ok ⟨[(0, [exSvcAll])], []⟩⟩ : CsaAdapter Unit) = .ok exNetC7 ∧
    exNetC7.query_lat_lon [(0, 0)] 0 30000 = none := by
  decide

/-- C7 (amended): for every built network whose connection targets and
transfer targets all resolve in the stop table, and every seed enumeration
whose stop ids resolve (the KD-tree is built from exactly the stop-table
keys, so every radius-query output does), the query returns normally; and
whenever the seed enumeration is empty — no stop within 500 m, including
out-of-range coordinates — the result is the empty list. -/
theorem C7_query_total_on_resolved_refs (net : TransportNetwork)
    (seeds : List (Nat × ℚ)) (date : Int) (time : Nat)
    (hr : RefsResolve net) (hs : SeedsResolve net seeds) :
    (∃ res, net.query_lat_lon seeds date time = some res) ∧
    net.query_lat_lon [] date time = some [] := by
  constructor
  · unfold TransportNetwork.query_lat_lon emitRows
    apply mapM_isSome
    intro kv hkv
    have hres : LabelsResolve net
        ((net.connections_after time).foldl (scanStep net date)
          (seedPhase net (mkDateTime date time) seeds)) := by
      refine foldl_invariant (P := fun st => LabelsResolve net st) _ _
        (labelsResolve_seedPhase hr hs _) ?_
      intro c hc acc hacc
      exact labelsResolve_scanStep hr (connections_after_subset hc) hacc
    have := hres kv hkv
    cases hl : alookup net.stops kv.1 with
    | none => rw [hl] at this; simp at this
    | some s => rfl
  · unfold TransportNetwork.query_lat_lon
    show emitRows net
      ((net.connections_after time).foldl (scanStep net date)
        (seedPhase net (mkDateTime date time) [])) = some []
    rw [show seedPhase net (mkDateTime date time) [] = CsaState.new from rfl,
      scan_empty]
    rfl

/-- C7 witness: the totality theorem applied to the concrete network
`exNetC2`, whose references all resolve, with one seed at the origin. -/
theorem C7_query_total_on_resolved_refs_witness :
    (∃ res, exNetC2.query_lat_lon [(0, 0)] 0 32400 = some res) ∧
    exNetC2.query_lat_lon [] 0 32400 = some [] :=
  C7_query_total_on_resolved_refs exNetC2 [(0, 0)] 0 32400 (by decide)
    (by decide)

/-! ### Min-fold lemmas -/

theorem foldl_cmin_some (l : List Int) (a : Int) :
    l.foldl cmin (some a) = some (l.foldl min a) := by
  induction l generalizing a with
  | nil => rfl
  | cons v t ih =>
    rw [List.foldl_cons, List.foldl_cons]
    exact ih (min a v)

theorem foldl_min_le (l : List Int) (a : Int) : l.foldl min a ≤ a := by
  induction l generalizing a with
  | nil => exact le_refl a
  | cons v t ih =>
    rw [List.foldl_cons]
    exact le_trans (ih (min a v)) (min_le_left a v)

theorem foldl_min_const {l : List Int} {a : Int} (h : ∀ v ∈ l, a ≤ v) :
    l.foldl min a = a := by
  induction l with
  | nil => rfl
  | cons v t ih =>
    rw [List.foldl_cons, min_eq_left (h v (List.mem_cons_self _ _))]
    exact ih (fun w hw => h w (List.mem_cons_of_mem _ hw))

theorem foldl_min_flatMap_filter {β : Type} (f : β → List Int) (P : β → Bool) :
    ∀ (l : List β) (a : Int),
      (∀ u ∈ l, P u = false → ∀ v ∈ f u, a ≤ v) →
      (l.flatMap f).foldl min a = ((l.filter P).flatMap f).foldl min a := by
  intro l
  induction l with
  | nil => intro a _; rfl
  | cons u t ih =>
    intro a h
    rw [List.flatMap_cons, List.foldl_append]
    cases hP : P u with
    | true =>
      rw [List.filter_cons_of_pos hP, List.flatMap_cons, List.foldl_append]
      exact ih ((f u).foldl min a) (fun u2 hu2 hp v hv =>
        le_trans (foldl_min_le _ _) (h u2 (List.mem_cons_of_mem _ hu2) hp v hv))
    | false =>
      rw [List.filter_cons_of_neg (by rw [hP]; exact Bool.false_ne_true),
        foldl_min_const (h u (List.mem_cons_self _ _) hP)]
      exact ih a (fun u2 hu2 hp v hv => h u2 (List.mem_cons_of_mem _ hu2) hp v hv)

/-! ### Lookup characterization of the conditional update loops -/

theorem condUpdate_lookup (st : CsaState) (k : Nat) (v : Int) (x : Nat) :
    alookup (if st.should_update_arrival k v then st.update_arrival k v
      else st).arrival_times x =
      if k = x then cmin (alookup st.arrival_times x) v
      else alookup st.arrival_times x := by
  by_cases hk : k = x
  · subst hk
    by_cases hc : st.should_update_arrival k v = true
    · rw [if_pos hc, if_pos rfl]
      rw [show (st.update_arrival k v).arrival_times =
        ainsert st.arrival_times k v from rfl, alookup_ainsert, if_pos rfl]
      unfold CsaState.should_update_arrival at hc
      cases hl : alookup st.arrival_times k with
      | none => rfl
      | some w =>
        rw [hl] at hc
        simp only [decide_eq_true_eq] at hc
        show some v = some (min w v)
        rw [min_eq_right (le_of_lt hc)]
    · rw [if_neg hc, if_pos rfl]
      unfold CsaState.should_update_arrival at hc
      cases hl : alookup st.arrival_times k with
      | none => exact absurd rfl (hl ▸ hc)
      | some w =>
        rw [hl] at hc
        simp only [decide_eq_true_eq] at hc
        show some w = some (min w v)
        rw [min_eq_left (le_of_not_lt hc)]
  · rw [if_neg hk]
    split
    · rw [show (st.update_arrival k v).arrival_times =
        ainsert st.arrival_times k v from rfl, alookup_ainsert,
        if_neg (fun h => hk h.symm)]
    · rfl

theorem relaxAux_lookup (base : Int) (x : Nat) :
    ∀ (trs : List Transfer) (st : CsaState),
      alookup (trs.foldl (fun st tr =>
        if st.should_update_arrival tr.to_stop_id (base + tr.transfer_time) then
          st.update_arrival tr.to_stop_id (base + tr.transfer_time)
        else st) st).arrival_times x =
      (trs.filterMap (fun tr => if tr.to_stop_id = x then
        some (base + tr.transfer_time) else none)).foldl cmin
        (alookup st.arrival_times x) := by
  intro trs
  induction trs with
  | nil => intro st; rfl
  | cons tr rest ih =>
    intro st
    rw [List.foldl_cons, ih]
    by_cases ht : tr.to_stop_id = x
    · simp only [List.filterMap_cons, if_pos ht, List.foldl_cons]
      rw [condUpdate_lookup, if_pos ht]
    · simp only [List.filterMap_cons, if_neg ht]
      rw [condUpdate_lookup, if_neg ht]

theorem relax_lookup (net : TransportNetwork) (base : Int) (stop x : Nat)
    (st : CsaState) :
    alookup (relaxTransfers net base stop st).arrival_times x =
      ((net.get_transfers stop).filterMap (fun tr =>
        if tr.to_stop_id = x then some (base + tr.transfer_time) else none)).foldl
        cmin (alookup st.arrival_times x) :=
  relaxAux_lookup base x (net.get_transfers stop) st

theorem seedOne_lookup (net : TransportNetwork) (dt0 : Int) (st : CsaState)
    (sd : Nat × ℚ) (x : Nat) :
    alookup (seedOne net dt0 st sd).arrival_times x =
      (contribVals net dt0 [sd] x).foldl cmin
        (if sd.1 = x then some (seedTime dt0 sd.2)
         else alookup st.arrival_times x) := by
  show alookup (relaxTransfers net (seedTime dt0 sd.2) sd.1
    (st.update_arrival sd.1 (seedTime dt0 sd.2))).arrival_times x = _
  rw [relax_lookup]
  have h1 : alookup ((st.update_arrival sd.1
      (seedTime dt0 sd.2)).arrival_times) x =
      if sd.1 = x then some (seedTime dt0 sd.2)
      else alookup st.arrival_times x := by
    rw [show (st.update_arrival sd.1 (seedTime dt0 sd.2)).arrival_times =
      ainsert st.arrival_times sd.1 (seedTime dt0 sd.2) from rfl,
      alookup_ainsert]
    by_cases h : sd.1 = x
    · rw [if_pos h, if_pos h.symm]
    · rw [if_neg h, if_neg (fun hh => h hh.symm)]
  rw [h1]
  have h2 : contribVals net dt0 [sd] x =
      (net.get_transfers sd.1).filterMap (fun tr =>
        if tr.to_stop_id = x then
          some (seedTime dt0 sd.2 + tr.transfer_time) else none) := by
    unfold contribVals
    rw [List.flatMap_cons, List.flatMap_nil, List.append_nil]
  rw [h2]

/-! ### The Phase-A closed form -/

theorem phaseAVal_of_find_some {net : TransportNetwork} {dt0 : Int}
    {l : List (Nat × ℚ)} {init : Option Int} {x : Nat} {p : Nat × ℚ}
    (h : l.find? (fun p => p.1 == x) = some p) :
    phaseAVal net dt0 l init x =
      (contribVals net dt0 (l.filter (fun u => decide (p.2 < u.2))) x).foldl
        cmin (some (seedTime dt0 p.2)) := by
  simp only [phaseAVal, h]

theorem phaseAVal_of_find_none {net : TransportNetwork} {dt0 : Int}
    {l : List (Nat × ℚ)} {init : Option Int} {x : Nat}
    (h : l.find? (fun p => p.1 == x) = none) :
    phaseAVal net dt0 l init x = (contribVals net dt0 l x).foldl cmin init := by
  simp only [phaseAVal, h]

theorem contribVals_mem {net : TransportNetwork} {dt0 : Int}
    {l : List (Nat × ℚ)} {x : Nat} {v : Int}
    (h : v ∈ contribVals net dt0 l x) :
    ∃ u ∈ l, ∃ tr ∈ net.get_transfers u.1,
      tr.to_stop_id = x ∧ v = seedTime dt0 u.2 + tr.transfer_time := by
  unfold contribVals at h
  rcases List.mem_flatMap.mp h with ⟨u, hu, hv⟩
  rcases List.mem_filterMap.mp hv with ⟨tr, htr, hsome⟩
  by_cases ht : tr.to_stop_id = x
  · rw [if_pos ht] at hsome
    exact ⟨u, hu, tr, htr, ht, (Option.some.inj hsome).symm⟩
  · rw [if_neg ht] at hsome
    cases hsome

theorem contribVals_single_ge {net : TransportNetwork} {dt0 : Int}
    {u : Nat × ℚ} {x : Nat} (hw : TransfersNonneg net) :
    ∀ v ∈ contribVals net dt0 [u] x, seedTime dt0 u.2 ≤ v := by
  intro v hv
  rcases contribVals_mem hv with ⟨u2, hu2, tr, htr, _, hveq⟩
  rw [List.mem_singleton] at hu2
  subst hu2
  rw [hveq]
  exact le_add_of_nonneg_right (transfersNonneg_get hw _ tr htr)

theorem contribVals_cons (net : TransportNetwork) (dt0 : Int) (ud : Nat × ℚ)
    (rest : List (Nat × ℚ)) (x : Nat) :
    contribVals net dt0 (ud :: rest) x =
      contribVals net dt0 [ud] x ++ contribVals net dt0 rest x := by
  unfold contribVals
  rw [List.flatMap_cons, List.flatMap_cons, List.flatMap_nil, List.append_nil]

theorem find?_key_none {α : Type} {l : List (Nat × α)} {x : Nat}
    (h : x ∉ l.map (fun p => p.1)) :
    l.find? (fun p => p.1 == x) = none := by
  rw [List.find?_eq_none]
  intro p hp hpx
  exact h (List.mem_map.mpr ⟨p, hp, by simpa using hpx⟩)

/-- The Phase-A lookup characterization: processing a distance-sorted,
key-distinct seed enumeration leaves each stop at the value described by
`phaseAVal` (transfer durations non-negative). -/
theorem seedFold_lookup (net : TransportNetwork) (dt0 : Int)
    (hw : TransfersNonneg net) :
    ∀ (l : List (Nat × ℚ)) (st : CsaState),
      l.Sorted (fun a b => a.2 ≤ b.2) → (l.map (fun p => p.1)).Nodup →
      ∀ x, alookup (l.foldl (seedOne net dt0) st).arrival_times x =
        phaseAVal net dt0 l (alookup st.arrival_times x) x := by
  intro l
  induction l with
  | nil => intro st _ _ x; rfl
  | cons ud rest ih =>
    intro st hsort hnd x
    have hs := List.sorted_cons.mp hsort
    rw [List.map_cons, List.nodup_cons] at hnd
    rw [List.foldl_cons, ih (seedOne net dt0 st ud) hs.2 hnd.2 x, seedOne_lookup]
    by_cases hx : ud.1 = x
    · -- the head seeds x; x is seeded nowhere else
      have hfr : rest.find? (fun p => p.1 == x) = none :=
        find?_key_none (hx ▸ hnd.1)
      rw [if_pos hx, phaseAVal_of_find_none hfr,
        phaseAVal_of_find_some (List.find?_cons_of_pos _ (by simpa using hx)),
        List.filter_cons_of_neg (by simp), ← List.foldl_append,
        foldl_cmin_some, foldl_cmin_some, List.foldl_append,
        foldl_min_const (contribVals_single_ge hw)]
      have hdrop := foldl_min_flatMap_filter
        (fun u => (net.get_transfers u.1).filterMap (fun tr =>
          if tr.to_stop_id = x then
            some (seedTime dt0 u.2 + tr.transfer_time) else none))
        (fun u => decide (ud.2 < u.2)) rest (seedTime dt0 ud.2) ?hclose
      case hclose =>
        intro u hu hP v hv
        have hle : u.2 ≤ ud.2 := by
          have := of_decide_eq_false hP
          exact le_of_not_lt this
        have heq : u.2 = ud.2 := le_antisymm hle (hs.1 u hu)
        have hv2 : v ∈ contribVals net dt0 [u] x := by
          unfold contribVals
          rw [List.flatMap_cons, List.flatMap_nil, List.append_nil]
          exact hv
        have := contribVals_single_ge hw v hv2
        rw [heq] at this
        exact this
      rw [show (rest.flatMap (fun u => (net.get_transfers u.1).filterMap
        (fun tr => if tr.to_stop_id = x then
          some (seedTime dt0 u.2 + tr.transfer_time) else none))) =
        contribVals net dt0 rest x from rfl] at hdrop
      rw [show ((rest.filter (fun u => decide (ud.2 < u.2))).flatMap
        (fun u => (net.get_transfers u.1).filterMap
        (fun tr => if tr.to_stop_id = x then
          some (seedTime dt0 u.2 + tr.transfer_time) else none))) =
        contribVals net dt0 (rest.filter (fun u => decide (ud.2 < u.2))) x
        from rfl] at hdrop
      rw [hdrop]
    · rw [if_neg hx]
      cases hfr : rest.find? (fun p => p.1 == x) with
      | some p =>
        have hfc : (ud :: rest).find? (fun p => p.1 == x) = some p := by
          rw [List.find?_cons_of_neg _ (by simpa using hx)]
          exact hfr
        rw [phaseAVal_of_find_some hfr, phaseAVal_of_find_some hfc]
        have hple : ud.2 ≤ p.2 := hs.1 p (List.mem_of_find?_eq_some hfr)
        rw [List.filter_cons_of_neg (by simpa using not_lt_of_le hple)]
      | none =>
        have hfc : (ud :: rest).find? (fun p => p.1 == x) = none := by
          rw [List.find?_cons_of_neg _ (by simpa using hx)]
          exact hfr
        rw [phaseAVal_of_find_none hfr, phaseAVal_of_find_none hfc]
        conv_rhs => rw [contribVals_cons net dt0 ud rest x, List.foldl_append]

/-! ### Permutation invariance of the Phase-A closed form -/

theorem nodupKeys_eq_of_mem {α : Type} {l : List (Nat × α)}
    (hnd : (l.map (fun p => p.1)).Nodup) {p q : Nat × α}
    (hp : p ∈ l) (hq : q ∈ l) (hkey : p.1 = q.1) : p = q := by
  induction l with
  | nil => cases hp
  | cons a t ih =>
    rw [List.map_cons, List.nodup_cons] at hnd
    rcases List.mem_cons.mp hp with hp1 | hp1 <;>
      rcases List.mem_cons.mp hq with hq1 | hq1
    · rw [hp1, hq1]
    · exfalso
      apply hnd.1
      subst hp1
      exact List.mem_map.mpr ⟨q, hq1, hkey.symm⟩
    · exfalso
      apply hnd.1
      subst hq1
      exact List.mem_map.mpr ⟨p, hp1, hkey⟩
    · exact ih hnd.2 hp1 hq1

theorem find?_key_perm {α : Type} {l1 l2 : List (Nat × α)} (h : l1.Perm l2)
    (hnd : (l1.map (fun p => p.1)).Nodup) (x : Nat) :
    l1.find? (fun p => p.1 == x) = l2.find? (fun p => p.1 == x) := by
  cases hf1 : l1.find? (fun p => p.1 == x) with
  | none =>
    rw [List.find?_eq_none] at hf1
    rw [eq_comm, List.find?_eq_none]
    intro p hp
    exact hf1 p (h.symm.subset hp)
  | some p =>
    have hp1 : p ∈ l1 := List.mem_of_find?_eq_some hf1
    have hpx := List.find?_some hf1
    cases hf2 : l2.find? (fun p => p.1 == x) with
    | none =>
      rw [List.find?_eq_none] at hf2
      exact absurd hpx (hf2 p (h.subset hp1))
    | some q =>
      have hq1 : q ∈ l1 := h.symm.subset (List.mem_of_find?_eq_some hf2)
      have hqx := List.find?_some hf2
      rw [nodupKeys_eq_of_mem hnd hp1 hq1 (by
        have hp2 : p.1 = x := by simpa using hpx
        have hq2 : q.1 = x := by simpa using hqx
        rw [hp2, hq2])]

theorem phaseAVal_perm {net : TransportNetwork} {dt0 : Int}
    {l1 l2 : List (Nat × ℚ)} (hperm : l1.Perm l2)
    (hnd : (l1.map (fun p => p.1)).Nodup) (init : Option Int) (x : Nat) :
    phaseAVal net dt0 l1 init x = phaseAVal net dt0 l2 init x := by
  have hf := find?_key_perm hperm hnd x
  cases hf2 : l2.find? (fun p => p.1 == x) with
  | none =>
    rw [phaseAVal_of_find_none (hf.trans hf2), phaseAVal_of_find_none hf2]
    exact (hperm.flatMap_right _).foldl_eq init
  | some p =>
    rw [phaseAVal_of_find_some (hf.trans hf2), phaseAVal_of_find_some hf2]
    exact ((hperm.filter _).flatMap_right _).foldl_eq _

/-! ### Observable state equivalence through the scan -/

theorem foldl_rel {α β : Type} {R : β → β → Prop} {f : β → α → β}
    (l : List α) {b1 b2 : β} (hb : R b1 b2)
    (hf : ∀ x ∈ l, ∀ a1 a2, R a1 a2 → R (f a1 x) (f a2 x)) :
    R (l.foldl f b1) (l.foldl f b2) := by
  induction l generalizing b1 b2 with
  | nil => exact hb
  | cons a t ih =>
    exact ih (hf a (List.mem_cons_self _ _) b1 b2 hb)
      (fun x hx => hf x (List.mem_cons_of_mem _ hx))

theorem update_equiv {st1 st2 : CsaState} (h : StateEquiv st1 st2)
    (k : Nat) (v : Int) :
    StateEquiv (st1.update_arrival k v) (st2.update_arrival k v) := by
  refine ⟨fun x => ?_, h.2⟩
  rw [show (st1.update_arrival k v).arrival_times =
      ainsert st1.arrival_times k v from rfl,
    show (st2.update_arrival k v).arrival_times =
      ainsert st2.arrival_times k v from rfl,
    alookup_ainsert, alookup_ainsert, h.1 x]

theorem board_trip_boarded (st : CsaState) (tr : Nat) :
    (st.board_trip tr).boarded_trips =
      if st.boarded_trips.contains tr then st.boarded_trips
      else st.boarded_trips ++ [tr] := by
  unfold CsaState.board_trip
  split
  · rfl
  · rfl

theorem board_equiv {st1 st2 : CsaState} (h : StateEquiv st1 st2) (tr : Nat) :
    StateEquiv (st1.board_trip tr) (st2.board_trip tr) := by
  constructor
  · intro x
    rw [board_trip_arrival, board_trip_arrival]
    exact h.1 x
  · rw [board_trip_boarded, board_trip_boarded, h.2]

theorem relax_equiv {net : TransportNetwork} {base : Int} {stop : Nat}
    {st1 st2 : CsaState} (h : StateEquiv st1 st2) :
    StateEquiv (relaxTransfers net base stop st1)
      (relaxTransfers net base stop st2) := by
  unfold relaxTransfers
  refine foldl_rel (R := StateEquiv) _ h ?_
  intro tr _ a1 a2 ha
  have hcond : a1.should_update_arrival tr.to_stop_id (base + tr.transfer_time)
      = a2.should_update_arrival tr.to_stop_id (base + tr.transfer_time) := by
    unfold CsaState.should_update_arrival
    rw [ha.1]
  by_cases hc : a2.should_update_arrival tr.to_stop_id
      (base + tr.transfer_time) = true
  · rw [if_pos (hcond.trans hc), if_pos hc]
    exact update_equiv ha _ _
  · rw [if_neg (fun hh => hc (hcond ▸ hh)), if_neg hc]
    exact ha

theorem scanStep_equiv {net : TransportNetwork} {date : Int} {c : Connection}
    {st1 st2 : CsaState} (h : StateEquiv st1 st2) :
    StateEquiv (scanStep net date st1 c) (scanStep net date st2 c) := by
  unfold scanStep
  have hb : st1.has_boarded c.trip_id = st2.has_boarded c.trip_id := by
    unfold CsaState.has_boarded
    rw [h.2]
  have hcb : st1.can_board c.from_stop_id (c.departure_date_time date) =
      st2.can_board c.from_stop_id (c.departure_date_time date) := by
    unfold CsaState.can_board
    rw [h.1]
  have hsu : (st1.board_trip c.trip_id).should_update_arrival c.to_stop_id
      (c.arrival_date_time date) =
      (st2.board_trip c.trip_id).should_update_arrival c.to_stop_id
      (c.arrival_date_time date) := by
    unfold CsaState.should_update_arrival
    rw [board_trip_arrival, board_trip_arrival, h.1]
  rw [hb, hcb, hsu]
  split
  · exact h
  · split
    · exact h
    · split
      · have hupd := update_equiv (board_equiv h c.trip_id) c.to_stop_id
          (c.arrival_date_time date)
        exact relax_equiv hupd
      · exact board_equiv h c.trip_id

/-! ### Nodup keys through the query -/

theorem nodupKeys_condUpdate {st : CsaState} (h : NodupKeys st.arrival_times)
    (k : Nat) (v : Int) :
    NodupKeys ((if st.should_update_arrival k v then st.update_arrival k v
      else st).arrival_times) := by
  split
  · exact nodupKeys_ainsert k v h
  · exact h

theorem nodupKeys_relax {net : TransportNetwork} {base : Int} {stop : Nat}
    {st : CsaState} (h : NodupKeys st.arrival_times) :
    NodupKeys (relaxTransfers net base stop st).arrival_times := by
  unfold relaxTransfers
  refine foldl_invariant (P := fun s : CsaState => NodupKeys s.arrival_times) _ _ h ?_
  intro tr _ acc hacc
  exact nodupKeys_condUpdate hacc _ _

theorem nodupKeys_seedPhase (net : TransportNetwork) (dt0 : Int)
    (seeds : List (Nat × ℚ)) :
    NodupKeys (seedPhase net dt0 seeds).arrival_times := by
  unfold seedPhase
  refine foldl_invariant (P := fun s : CsaState => NodupKeys s.arrival_times) _ _
    (by unfold NodupKeys CsaState.new; simp) ?_
  intro sd _ acc hacc
  unfold seedOne
  exact nodupKeys_relax (nodupKeys_ainsert _ _ hacc)

theorem nodupKeys_scanStep {net : TransportNetwork} {date : Int}
    {c : Connection} {st : CsaState} (h : NodupKeys st.arrival_times) :
    NodupKeys (scanStep net date st c).arrival_times := by
  unfold scanStep
  split
  · exact h
  · split
    · exact h
    · have hb : NodupKeys (st.board_trip c.trip_id).arrival_times := by
        rw [board_trip_arrival]
        exact h
      split
      · exact nodupKeys_relax (nodupKeys_ainsert _ _ hb)
      · exact hb

/-! ### Equal lookups and nodup keys give permuted entry lists -/

theorem alookup_eq_none_iff {α : Type} {l : List (Nat × α)} {x : Nat} :
    alookup l x = none ↔ x ∉ l.map (fun p => p.1) := by
  induction l with
  | nil => simp [alookup]
  | cons p t ih =>
    by_cases hp : p.1 = x
    · simp [alookup, hp]
    · rw [show alookup (p :: t) x = alookup t x from by simp [alookup, hp],
        ih, List.map_cons, List.mem_cons]
      constructor
      · intro h hc
        rcases hc with hc | hc
        · exact hp hc.symm
        · exact h hc
      · intro h hc
        exact h (Or.inr hc)

theorem alookup_append_mid {α : Type} (pre post : List (Nat × α))
    (q : Nat × α) {x : Nat} (hq : ¬ q.1 = x) :
    alookup (pre ++ q :: post) x = alookup (pre ++ post) x := by
  induction pre with
  | nil =>
    show alookup (q :: post) x = alookup post x
    simp [alookup, hq]
  | cons a t ih =>
    show alookup (a :: (t ++ q :: post)) x = alookup (a :: (t ++ post)) x
    by_cases ha : a.1 = x
    · simp [alookup, ha]
    · simp [alookup, ha, ih]

theorem alist_perm_of_lookup_eq {α : Type} [DecidableEq α]
    {l1 l2 : List (Nat × α)} (h1 : NodupKeys l1) (h2 : NodupKeys l2)
    (h : ∀ x, alookup l1 x = alookup l2 x) : l1.Perm l2 := by
  induction l1 generalizing l2 with
  | nil =>
    cases l2 with
    | nil => exact List.Perm.refl _
    | cons q t =>
      have hq := h q.1
      simp [alookup] at hq
  | cons p t ih =>
    have hl : alookup l2 p.1 = some p.2 := by
      rw [← h p.1]
      simp [alookup]
    have hmem : p ∈ l2 := alookup_mem hl
    rcases List.exists_erase_eq hmem with ⟨pre, post, hnp, heq, herase⟩
    have hkeys2 : (pre.map (fun r => r.1)).Nodup ∧
        p.1 ∉ pre.map (fun r => r.1) ∧ p.1 ∉ post.map (fun r => r.1) ∧
        (post.map (fun r => r.1)).Nodup ∧
        ∀ y ∈ pre.map (fun r => r.1), y ∉ post.map (fun r => r.1) := by
      have := h2
      unfold NodupKeys at this
      rw [heq, List.map_append, List.map_cons, List.nodup_append] at this
      rcases this with ⟨hpre, hcons, hdisj⟩
      rw [List.nodup_cons] at hcons
      refine ⟨hpre, ?_, hcons.1, hcons.2, ?_⟩
      · intro hmem2
        exact hdisj hmem2 (List.mem_cons_self _ _)
      · intro y hy hy2
        exact hdisj hy (List.mem_cons_of_mem _ hy2)
    have hnd1 : NodupKeys t := by
      have := h1
      unfold NodupKeys at this
      rw [List.map_cons, List.nodup_cons] at this
      exact this.2
    have hkey1 : p.1 ∉ t.map (fun r => r.1) := by
      have := h1
      unfold NodupKeys at this
      rw [List.map_cons, List.nodup_cons] at this
      exact this.1
    have hnd2 : NodupKeys (pre ++ post) := by
      unfold NodupKeys
      rw [List.map_append, List.nodup_append]
      exact ⟨hkeys2.1, hkeys2.2.2.2.1, hkeys2.2.2.2.2⟩
    have ht2 : ∀ x, alookup t x = alookup (pre ++ post) x := by
      intro x
      by_cases hx : p.1 = x
      · rw [← hx]
        rw [alookup_eq_none_iff.mpr hkey1, eq_comm, alookup_eq_none_iff]
        rw [List.map_append, List.mem_append]
        rintro (hc | hc)
        · exact hkeys2.2.1 hc
        · exact hkeys2.2.2.1 hc
      · have hhead := h x
        rw [show alookup (p :: t) x = alookup t x from by
          simp [alookup, hx]] at hhead
        rw [hhead, heq, alookup_append_mid _ _ _ hx]
    exact ((ih hnd1 hnd2 ht2).cons p).trans
      (by rw [heq]; exact List.perm_middle.symm)

theorem mapM_eq_filterMap {α β : Type} {f : α → Option β} {l : List α}
    {r : List β} (h : l.mapM f = some r) : r = l.filterMap f := by
  induction l generalizing r with
  | nil =>
    rw [List.mapM_nil] at h
    cases h
    rfl
  | cons a t ih =>
    rw [List.mapM_cons] at h
    cases hfa : f a with
    | none => rw [hfa] at h; simp at h
    | some y =>
      rw [hfa] at h
      cases hmt : t.mapM f with
      | none => rw [hmt] at h; simp at h
      | some ys =>
        rw [hmt] at h
        have h2 : y :: ys = r := Option.some.inj h
        rw [← h2, List.filterMap_cons, hfa, ih hmt]

/-! ### Phase A leaves the boarded set empty -/

theorem relax_boarded (net : TransportNetwork) (base : Int) (stop : Nat)
    (st : CsaState) :
    (relaxTransfers net base stop st).boarded_trips = st.boarded_trips := by
  unfold relaxTransfers
  refine foldl_invariant
    (P := fun s : CsaState => s.boarded_trips = st.boarded_trips) _ _ rfl ?_
  intro tr _ acc hacc
  split
  · exact hacc
  · exact hacc

theorem seedPhase_boarded (net : TransportNetwork) (dt0 : Int)
    (seeds : List (Nat × ℚ)) :
    (seedPhase net dt0 seeds).boarded_trips = [] := by
  unfold seedPhase
  refine foldl_invariant (P := fun s : CsaState => s.boarded_trips = []) _ _ rfl ?_
  intro sd _ acc hacc
  unfold seedOne
  rw [relax_boarded]
  exact hacc

/-! ### C8: run-to-run determinism of the returned mapping -/

/-- C8: two runs of the query on the same network, date and time whose radius
enumerations are permutations of the same seed set and both sorted by
distance (kiddo's `within` returns nearest-first, so two runs can differ only
in the order of equal-distance ties; hash-map iteration orders can reshuffle
ties and the emission), with §3-non-negative transfer durations, return the
same mapping: the result rows are a permutation — the same stops with the
same arrival date-times. -/
theorem C8_query_deterministic (net : TransportNetwork)
    (seeds1 seeds2 : List (Nat × ℚ)) (date : Int) (time : Nat)
    (r1 r2 : List ArrivalTime)
    (hw : TransfersNonneg net)
    (hperm : seeds1.Perm seeds2)
    (hs1 : seeds1.Sorted (fun a b => a.2 ≤ b.2))
    (hs2 : seeds2.Sorted (fun a b => a.2 ≤ b.2))
    (hnd : (seeds1.map (fun p => p.1)).Nodup)
    (h1 : net.query_lat_lon seeds1 date time = some r1)
    (h2 : net.query_lat_lon seeds2 date time = some r2) :
    r1.Perm r2 := by
  have hnd2 : (seeds2.map (fun p => p.1)).Nodup := (hperm.map _).nodup hnd
  have hA : StateEquiv (seedPhase net (mkDateTime date time) seeds1)
      (seedPhase net (mkDateTime date time) seeds2) := by
    constructor
    · intro x
      rw [show seedPhase net (mkDateTime date time) seeds1 =
          seeds1.foldl (seedOne net (mkDateTime date time)) CsaState.new
          from rfl,
        show seedPhase net (mkDateTime date time) seeds2 =
          seeds2.foldl (seedOne net (mkDateTime date time)) CsaState.new
          from rfl,
        seedFold_lookup net (mkDateTime date time) hw seeds1 _ hs1 hnd x,
        seedFold_lookup net (mkDateTime date time) hw seeds2 _ hs2 hnd2 x]
      exact phaseAVal_perm hperm hnd _ x
    · rw [seedPhase_boarded, seedPhase_boarded]
  have hB : StateEquiv
      ((net.connections_after time).foldl (scanStep net date)
        (seedPhase net (mkDateTime date time) seeds1))
      ((net.connections_after time).foldl (scanStep net date)
        (seedPhase net (mkDateTime date time) seeds2)) :=
    foldl_rel (R := StateEquiv) _ hA
      (fun c _ a1 a2 ha => scanStep_equiv ha)
  have hk1 : NodupKeys ((net.connections_after time).foldl (scanStep net date)
      (seedPhase net (mkDateTime date time) seeds1)).arrival_times := by
    refine foldl_invariant (P := fun s : CsaState => NodupKeys s.arrival_times) _ _
      (nodupKeys_seedPhase net _ seeds1) ?_
    intro c _ acc hacc
    exact nodupKeys_scanStep hacc
  have hk2 : NodupKeys ((net.connections_after time).foldl (scanStep net date)
      (seedPhase net (mkDateTime date time) seeds2)).arrival_times := by
    refine foldl_invariant (P := fun s : CsaState => NodupKeys s.arrival_times) _ _
      (nodupKeys_seedPhase net _ seeds2) ?_
    intro c _ acc hacc
    exact nodupKeys_scanStep hacc
  have hentries := alist_perm_of_lookup_eq hk1 hk2 hB.1
  unfold TransportNetwork.query_lat_lon at h1 h2
  rw [mapM_eq_filterMap h1, mapM_eq_filterMap h2]
  exact hentries.filterMap _

/-- C8 witness: the determinism theorem applied to the network `exNetC2` with
two stops at equal distance 140 m (tied walking seeds), whose radius
enumerations in the two runs list the tie in opposite orders. -/
theorem C8_query_deterministic_witness :
    List.Perm
      [(⟨"A", 32500, 0, 0⟩ : ArrivalTime), ⟨"B", 32500, 1, 0⟩]
      [(⟨"B", 32500, 1, 0⟩ : ArrivalTime), ⟨"A", 32500, 0, 0⟩] :=
  C8_query_deterministic exNetC2 [(0, 140), (1, 140)] [(1, 140), (0, 140)]
    0 32400 _ _ (by decide) (List.Perm.swap _ _ _) (by decide) (by decide)
    (by decide) (by decide) (by decide)

/-! ### C9: the persisted format has no magic and no version -/

/-- C9 counterexample: the claim says every saved file begins with the magic
bytes `RISO` and a `u32` version 1 and that load rejects mismatches.  The
saved bytes of `exNetC9` do not begin with `RISO` (no such constant exists
anywhere in the source), and `loadBytes` accepts the header-less stream and
reconstructs the network — there is no magic or version gate. -/
theorem C9_no_magic_counterexample :
    (saveBytes exNetC9).take 4 ≠ [82, 73, 83, 79] ∧
    loadBytes (saveBytes exNetC9) = some exNetC9 := by
  constructor
  · decide
  · decide

/-- C9 (amended): `save` writes the raw postcard serialization of the network
— the five struct fields in declaration order (KD-tree, stop table,
connection table, transfer table, calendar) with no leading magic and no
version number; `load` postcard-decodes the bytes, performing no magic or
version check, and fails only on malformed postcard data (a well-formed
header-less stream such as a saved network round-trips). -/
theorem C9_raw_postcard_no_header :
    (∀ net : TransportNetwork, saveBytes net =
      listBytes natBytes net.tree ++
        listBytes (fun p => natBytes p.1 ++ stopBytes p.2) net.stops ++
        listBytes connectionBytes net.connections ++
        listBytes (fun p => natBytes p.1 ++ listBytes transferBytes p.2)
          net.transfers ++
        calendarBytes net.calendar) ∧
    loadBytes (saveBytes exNetC9) = some exNetC9 ∧
    loadBytes (saveBytes exNetC7) = some exNetC7 :=
  ⟨fun _ => rfl, by decide, by decide⟩

end RailIso
